import Mathlib

/-!
Verification development for the Arduino-Gestion-Classe deployment
orchestration engine.

The definitions below are a shallow embedding of the TypeScript sources:

* `JobQueue` (src/src/services/WinRMClient.ts, second compilation unit):
  job table, waiting FIFO, active map, snapshot/telemetry derivation,
  enqueue / cancel / scheduling / completion / retry logic.
* `DeploymentManager.executeJob` and strategy resolution
  (src/unnamed/part_001).
* `WinRMClient.supports` (src/src/services/WinRMClient.ts, first unit).
* `HostRegistry.importFromCsv` (src/unnamed/part_002).

Modelling conventions:

* Timestamps (`Date.now()`, ISO strings) are abstract `Nat` ticks; every
  mutating queue operation uses the state's current tick and then advances
  it by one.  `computeDuration` over ISO strings becomes truncated `Nat`
  subtraction, which coincides with the source's `Math.max(0, end - start)`.
* Job ids (`uuidv4()`) are drawn from a monotone counter `nextId`; the only
  property the source relies on is freshness.
* The queue's asynchronous behaviour is modelled at two granularities.
  The coarse system (`Step` / `Reach`) takes as atomic steps one scheduling
  pop+start, one completion handler together with `executeJob`'s `finally`
  block, one `enqueue`, one `cancel`; the executor runs between a `start`
  and a `complete` label, whose outcome (resolved `DeploymentResult` or
  thrown error) the `complete` label carries.  That collapses the source's
  two genuine suspension points — the `await delay(100)` between the retry
  handler's requeue and the `finally` block, and the throttle sleep between
  `waitingQueue.shift()` and `startJob` — so it is used only for properties
  insensitive to them.  The refined system (`StepA` / `ReachA`, below)
  makes both windows explicit and is used for the properties those windows
  break.
* `EventEmitter` emissions are recorded in an `events` list (snapshot
  re-publications are not tracked; only the named job events are).
* The `running` flag is not modelled: `DeploymentManager` calls
  `jobQueue.start()` in its constructor and nothing in the claims exercises
  `stop()`.
-/

namespace ArduinoClassroom

/-! ## Data model (src/src/models/types.ts) -/

inductive JobState
  | queued
  | running
  | succeeded
  | failed
  | cancelled
  | skipped
deriving DecidableEq, Repr

inductive DeploymentAction
  | detect
  | upload
  | erase
deriving DecidableEq, Repr

inductive JobMode
  | normal
  | dryRun
deriving DecidableEq, Repr

inductive ResultStatus
  | OK
  | ERROR
  | TIMEOUT
deriving DecidableEq, Repr

structure DeploymentResult where
  status : ResultStatus
  port : Option String := none
  elapsedMs : Option Nat := none
  logs : List String := []
  error : Option String := none
  checksum : Option String := none
deriving DecidableEq, Repr

/-- Field `os` is a plain string: the CSV import path casts an arbitrary column
value to `HostRecord["os"]` without validation, so at runtime any string can
occur. -/
structure HostRecord where
  id : String
  name : String
  address : String
  os : String
  tags : List String
  enabled : Bool
  groups : List String := []
  notes : Option String := none
  lastSeenAt : Option String := none
deriving DecidableEq, Repr

structure DeploymentProfile where
  id : String
  label : String
  fqbn : String
  maxParallel : Nat
  timeoutMs : Nat
  retryCount : Option Nat := none
deriving DecidableEq, Repr

structure DeploymentContext where
  profile : DeploymentProfile
  host : HostRecord
deriving DecidableEq, Repr

structure JobMetrics where
  queuedAt : Nat
  startedAt : Option Nat := none
  completedAt : Option Nat := none
  elapsedMs : Option Nat := none
  attempt : Nat := 0
deriving DecidableEq, Repr

structure DeploymentJob where
  id : Nat
  hostId : String
  action : DeploymentAction
  profileId : String
  sketchPath : Option String := none
  hexPath : Option String := none
  mode : JobMode
  status : JobState
  metrics : JobMetrics
  result : Option DeploymentResult := none
  error : Option String := none
deriving DecidableEq, Repr

/-- Outcome of one executor invocation: a resolved `DeploymentResult` or a
thrown error (the queue only ever stringifies thrown errors, so they are
kept as strings). -/
abbrev ExecOutcome := Except String DeploymentResult

instance : DecidableEq ExecOutcome := fun a b =>
  match a, b with
  | .ok x, .ok y =>
    if h : x = y then .isTrue (by rw [h]) else .isFalse (by simp [h])
  | .ok _, .error _ => .isFalse (by simp)
  | .error _, .ok _ => .isFalse (by simp)
  | .error x, .error y =>
    if h : x = y then .isTrue (by rw [h]) else .isFalse (by simp [h])

/-! ## Job queue state (src/src/services/WinRMClient.ts, class JobQueue) -/

structure JobQueueOptions where
  maxParallel : Nat
  retryCount : Nat
  throttleMs : Nat
  metricsWindowSize : Option Nat := none
deriving DecidableEq, Repr

def DEFAULT_OPTIONS : JobQueueOptions :=
  { maxParallel := 4, retryCount := 1, throttleMs := 0,
    metricsWindowSize := some 50 }

structure EnqueueJobInput where
  hostId : String
  action : DeploymentAction
  profileId : String
  sketchPath : Option String := none
  hexPath : Option String := none
  mode : Option JobMode := none
  context : DeploymentContext
deriving DecidableEq, Repr

inductive QueueEvent
  | jobEnqueued (id : Nat)
  | jobStarted (id : Nat)
  | jobCompleted (id : Nat)
  | jobFailed (id : Nat)
  | jobRetried (id : Nat) (attempt : Nat)
deriving DecidableEq, Repr

structure QueueState where
  opts : JobQueueOptions
  jobs : List DeploymentJob
  waiting : List Nat
  active : List Nat
  contextByJob : List (Nat × DeploymentContext)
  completedDurations : List Nat
  completionHistory : List Nat
  events : List QueueEvent
  nextId : Nat
  now : Nat
deriving DecidableEq, Repr

def initState (opts : JobQueueOptions) : QueueState :=
  { opts := opts, jobs := [], waiting := [], active := [],
    contextByJob := [], completedDurations := [], completionHistory := [],
    events := [], nextId := 0, now := 0 }

def findJob (s : QueueState) (i : Nat) : Option DeploymentJob :=
  s.jobs.find? (fun j => j.id == i)

def lookupContext (s : QueueState) (i : Nat) : Option DeploymentContext :=
  s.contextByJob.lookup i

/-- Models `this.jobs.set(id, j2)` for an id already present in the map: replace in
place (Map preserves insertion order on overwrite). -/
def replaceJob (jobs : List DeploymentJob) (i : Nat) (j2 : DeploymentJob) :
    List DeploymentJob :=
  jobs.map (fun j => if j.id == i then j2 else j)

def countStatus (s : QueueState) (st : JobState) : Nat :=
  (s.jobs.filter (fun j => j.status == st)).length

structure QueueSnapshot where
  jobs : List DeploymentJob
  activeCount : Nat
  waitingCount : Nat
  completedCount : Nat
  failedCount : Nat
deriving DecidableEq, Repr

/-- Source: `JobQueue.getSnapshot` (lines 278-292). -/
def getSnapshot (s : QueueState) : QueueSnapshot :=
  { jobs := s.jobs
    activeCount := s.active.length
    waitingCount := s.waiting.length
    completedCount := countStatus s .succeeded
    failedCount := countStatus s .failed }

structure QueueTelemetry where
  averageDurationMs : ℚ
  successRate : ℚ
  failureRate : ℚ
  throughputPerMinute : Nat
deriving DecidableEq, Repr

/-- Models `arr.slice(-w)`: the last `w` elements, except that `w = 0` gives
`slice(-0) = slice(0)`, i.e. the whole array. -/
def sliceLast (l : List Nat) (w : Nat) : List Nat :=
  if w = 0 then l else l.drop (l.length - w)

/-- Source: `JobQueue.getTelemetry` (lines 294-316).  Rates are rational numbers;
the JS `total || 1` zero-guard becomes an explicit conditional. -/
def getTelemetry (s : QueueState) : QueueTelemetry :=
  let windowSize := s.opts.metricsWindowSize.getD 50
  let durations := sliceLast s.completedDurations windowSize
  let averageDurationMs : ℚ :=
    if durations.length = 0 then 0
    else (durations.sum : ℚ) / (durations.length : ℚ)
  let completions := sliceLast s.completionHistory windowSize
  let perMinuteWindow := completions.filter (fun t => s.now - t ≤ 60000)
  let throughputPerMinute := perMinuteWindow.length
  let sfCount :=
    (s.jobs.filter
      (fun j => j.status == JobState.succeeded || j.status == JobState.failed)).length
  let total : Nat := if sfCount = 0 then 1 else sfCount
  let successRate : ℚ := (countStatus s .succeeded : ℚ) / (total : ℚ)
  let failureRate : ℚ := (countStatus s .failed : ℚ) / (total : ℚ)
  { averageDurationMs := averageDurationMs
    successRate := successRate
    failureRate := failureRate
    throughputPerMinute := throughputPerMinute }

/-- Source: `createInitialJob` (lines 210-225). -/
def createInitialJob (s : QueueState) (inp : EnqueueJobInput) : DeploymentJob :=
  { id := s.nextId
    hostId := inp.hostId
    action := inp.action
    profileId := inp.profileId
    sketchPath := inp.sketchPath
    hexPath := inp.hexPath
    mode := inp.mode.getD .normal
    status := .queued
    metrics := { queuedAt := s.now, attempt := 0 } }

/-- Source: `JobQueue.enqueue` (lines 318-328): store the job, push its id on the
FIFO, remember its context, publish, emit `jobEnqueued`. -/
def enqueueOp (s : QueueState) (inp : EnqueueJobInput) : QueueState :=
  let job := createInitialJob s inp
  { s with
    jobs := s.jobs ++ [job]
    waiting := s.waiting ++ [job.id]
    contextByJob := s.contextByJob ++ [(job.id, inp.context)]
    events := s.events ++ [.jobEnqueued job.id]
    nextId := s.nextId + 1
    now := s.now + 1 }

/-- The `cancelledJob` record built by `cancel` (lines 345-353): status
overwritten to `cancelled`, `completedAt` refreshed, `elapsedMs` zeroed, all
other fields (including `attempt` and `startedAt`) kept. -/
def cancelledJobOf (s : QueueState) (job : DeploymentJob) : DeploymentJob :=
  { job with
    status := .cancelled
    metrics := { job.metrics with
      completedAt := some s.now
      elapsedMs := some 0 } }

/-- Source: `JobQueue.cancel` (lines 330-357): unknown id is ignored; an active job
is rejected with no state change; otherwise the id is spliced out of the
FIFO (if present) and the job is overwritten as `cancelled` with a fresh
`completedAt` and `elapsedMs = 0`, and `jobCompleted` is emitted. -/
def cancelOp (s : QueueState) (i : Nat) : QueueState :=
  match findJob s i with
  | none => s
  | some job =>
    if i ∈ s.active then s
    else
      { s with
        waiting := s.waiting.erase i
        jobs := replaceJob s.jobs i (cancelledJobOf s job)
        events := s.events ++ [.jobCompleted i]
        now := s.now + 1 }

/-- Source: `JobQueue.cancelAll` (lines 359-362): snapshot the waiting ids, cancel
each. -/
def cancelAllOp (s : QueueState) : QueueState :=
  s.waiting.foldl (fun acc i => cancelOp acc i) s

/-- The `runningJob` record built by `startJob` (lines 408-418): increment
`attempt`, record `startedAt`, mark `running`. -/
def runningJobOf (s : QueueState) (job : DeploymentJob) : DeploymentJob :=
  { job with
    status := .running
    metrics := { job.metrics with
      attempt := job.metrics.attempt + 1
      startedAt := some s.now } }

/-- Source: `JobQueue.startJob` (lines 407-426): store the running version, add it
to the active map, emit `jobStarted`. -/
def startJobOp (s : QueueState) (job : DeploymentJob) : QueueState :=
  { s with
    jobs := replaceJob s.jobs job.id (runningJobOf s job)
    active := s.active ++ [job.id]
    events := s.events ++ [.jobStarted job.id]
    now := s.now + 1 }

/-- One iteration of the `JobQueue.processQueue` loop (lines 373-405):
subject to the concurrency guard, pop the oldest waiting id; a missing job
or context makes the loop `continue` with the id dropped; otherwise start
the job.  This collapses the pop and the start into one synchronous
section, which is exact only when the iteration does not sleep in the
throttle delay (always the case for `throttleMs = 0`); the refined
`popThrottleOp` / `startPendingOp` below model a sleeping iteration. -/
def processOneOp (s : QueueState) : QueueState :=
  if s.active.length < s.opts.maxParallel then
    match s.waiting with
    | [] => s
    | i :: rest =>
      let s1 := { s with waiting := rest }
      match findJob s1 i, lookupContext s1 i with
      | some job, some _ => startJobOp s1 job
      | _, _ => s1
  else s

/-- Source: `computeDuration` (lines 458-465): `Math.max(0, end - start)` is `Nat`
truncated subtraction over the tick clock. -/
def computeDuration (startAt : Option Nat) (endAt : Nat) : Nat :=
  match startAt with
  | none => 0
  | some t => endAt - t

/-- Source: `trackMetrics` (lines 467-478).  Note the JS truthiness test
`if (job.metrics.elapsedMs)`: both `undefined` and `0` are skipped. -/
def trackMetrics (s : QueueState) (job : DeploymentJob) : QueueState :=
  let windowSize := s.opts.metricsWindowSize.getD 50
  let durations :=
    match job.metrics.elapsedMs with
    | some e =>
      if e ≠ 0 then
        let d := s.completedDurations ++ [e]
        if d.length > windowSize then d.drop 1 else d
      else s.completedDurations
    | none => s.completedDurations
  let history :=
    let h := s.completionHistory ++ [s.now]
    if h.length > 200 then h.drop 1 else h
  { s with completedDurations := durations, completionHistory := history }

/-- The `completedJob` record built by `executeJob` (lines 433-443). -/
def completedJobOf (s : QueueState) (job : DeploymentJob)
    (result : DeploymentResult) : DeploymentJob :=
  { job with
    status :=
      if result.status == .OK then .succeeded
      else if result.status == .TIMEOUT then .failed
      else .failed
    metrics := { job.metrics with
      completedAt := some s.now
      elapsedMs := some (result.elapsedMs.getD
        (computeDuration (some (job.metrics.startedAt.getD job.metrics.queuedAt))
          s.now)) }
    result := some result
    error := result.error }

/-- Success path of `JobQueue.executeJob` (lines 428-456), together with the
`finally` block: settle the job from the result, track metrics, emit
`jobCompleted`, drop the job from the active map. -/
def completeOkOp (s : QueueState) (job : DeploymentJob)
    (result : DeploymentResult) : QueueState :=
  let completedJob := completedJobOf s job result
  let s1 := { s with jobs := replaceJob s.jobs job.id completedJob }
  let s2 := trackMetrics s1 completedJob
  { s2 with
    events := s2.events ++ [.jobCompleted job.id]
    active := s2.active.erase job.id
    now := s2.now + 1 }

/-- The `retriedJob` record built by `handleJobFailure` (lines 485-495):
back to `queued`, timing fields cleared, `attempt` kept, error recorded. -/
def retriedJobOf (job : DeploymentJob) (error : String) : DeploymentJob :=
  { job with
    status := .queued
    metrics := { job.metrics with
      startedAt := none
      completedAt := none
      elapsedMs := none }
    error := some error }

/-- The `failedJob` record built by `handleJobFailure` (lines 506-516). -/
def failedJobOf (s : QueueState) (job : DeploymentJob) (error : String) :
    DeploymentJob :=
  { job with
    status := .failed
    metrics := { job.metrics with
      completedAt := some s.now
      elapsedMs := some (computeDuration
        (some (job.metrics.startedAt.getD job.metrics.queuedAt)) s.now) }
    error := some error }

/-- Source: `JobQueue.handleJobFailure` (lines 480-520), together with the `finally`
block of `executeJob`: if `retryCount - attempt > 0` the job is returned to
`queued` at the back of the FIFO with timing fields cleared (its `attempt`
is kept) and `jobRetried` is emitted; otherwise the job settles as `failed`
with `completedAt` set and the error captured, emitting `jobFailed`.  On
the retry path this collapses the `await delay(100)` (line 501) that the
source inserts between the requeue and the `finally` block — the 100 ms
window during which the job sits in the FIFO and the active map at once;
the refined `completeOpA` / `retryFinallyOp` below keep that window. -/
def handleJobFailureOp (s : QueueState) (job : DeploymentJob)
    (error : String) : QueueState :=
  if job.metrics.attempt < s.opts.retryCount then
    let retriedJob := retriedJobOf job error
    { s with
      jobs := replaceJob s.jobs job.id retriedJob
      waiting := s.waiting ++ [job.id]
      events := s.events ++ [.jobRetried job.id (retriedJob.metrics.attempt + 1)]
      active := s.active.erase job.id
      now := s.now + 1 }
  else
    { s with
      jobs := replaceJob s.jobs job.id (failedJobOf s job error)
      events := s.events ++ [.jobFailed job.id]
      active := s.active.erase job.id
      now := s.now + 1 }

/-- Completion of the executor call launched for job `i`: dispatch on the
outcome (resolved result vs thrown error), as in `executeJob`. -/
def completeOp (s : QueueState) (i : Nat) (outcome : ExecOutcome) :
    QueueState :=
  match findJob s i with
  | none => s
  | some job =>
    match outcome with
    | .ok result => completeOkOp s job result
    | .error e => handleJobFailureOp s job e

/-! ## Transition system -/

inductive QueueLabel
  | enq (inp : EnqueueJobInput)
  | start (i : Nat)
  | complete (i : Nat) (outcome : ExecOutcome)
  | cancel (i : Nat)
deriving DecidableEq, Repr

/-- Atomic transitions of one queue instance at the coarse granularity (each
handler one step, the two `delay` suspension points collapsed).  `start`
fires only when the scheduling loop's guard (`activeJobs.size < maxParallel`
and a non-empty FIFO) holds; `complete` fires only for a job whose executor
is in flight, i.e. one in the active map. -/
inductive Step : QueueState → QueueLabel → QueueState → Prop
  | enq (s : QueueState) (inp : EnqueueJobInput) :
      Step s (.enq inp) (enqueueOp s inp)
  | start (s : QueueState) (i : Nat) (rest : List Nat)
      (hw : s.waiting = i :: rest)
      (hcap : s.active.length < s.opts.maxParallel) :
      Step s (.start i) (processOneOp s)
  | complete (s : QueueState) (i : Nat) (outcome : ExecOutcome)
      (hact : i ∈ s.active) :
      Step s (.complete i outcome) (completeOp s i outcome)
  | cancel (s : QueueState) (i : Nat) :
      Step s (.cancel i) (cancelOp s i)

/-- States reachable from a freshly constructed queue, together with the
trace of labels that produced them. -/
inductive Reach : List QueueLabel → QueueState → Prop
  | init (opts : JobQueueOptions) : Reach [] (initState opts)
  | snoc {tr : List QueueLabel} {s : QueueState} {l : QueueLabel}
      {s2 : QueueState} :
      Reach tr s → Step s l s2 → Reach (tr ++ [l]) s2

/-- Number of executor invocations of job `i` recorded in a trace: one per
`start` label. -/
def countStarts (i : Nat) (tr : List QueueLabel) : Nat :=
  (tr.filter (fun l => match l with | .start k => k == i | _ => false)).length

def countEnq (tr : List QueueLabel) : Nat :=
  (tr.filter (fun l => match l with | .enq _ => true | _ => false)).length

/-- Every completed executor invocation of job `i` in the trace ended in a
thrown error (an executor that throws on every invocation). -/
def throwsOnly (i : Nat) (tr : List QueueLabel) : Prop :=
  ∀ o : ExecOutcome, QueueLabel.complete i o ∈ tr → ∃ e, o = .error e

/-- Every completed executor invocation of job `i` in the trace ended in
one fixed thrown error `e`. -/
def throwsExactly (i : Nat) (e : String) (tr : List QueueLabel) : Prop :=
  ∀ o : ExecOutcome, QueueLabel.complete i o ∈ tr → o = .error e

def neverCancelled (i : Nat) (tr : List QueueLabel) : Prop :=
  QueueLabel.cancel i ∉ tr

/-! ## Deployment manager executor and strategy resolution
(src/unnamed/part_001, `DeploymentManager.executeJob` /
`getStrategyForHost`; src/src/services/WinRMClient.ts, `supports`) -/

structure DeploymentStrategy where
  id : String
  label : String
  supports : HostRecord → Bool
  execute : DeploymentJob → DeploymentContext → ExecOutcome

/-- Source: `getStrategyForHost` (part_001 lines 290-297): iterate registered
strategies in registration order, first match wins. -/
def getStrategyForHost (strategies : List DeploymentStrategy)
    (host : HostRecord) : Option DeploymentStrategy :=
  strategies.find? (fun st => st.supports host)

def noStrategyError (os : String) : String :=
  "Aucune stratégie de déploiement disponible pour " ++ os

/-- Source: `DeploymentManager.executeJob` (part_001 lines 282-288): resolve the
strategy for the job's host; if none supports it, throw the configuration
error; otherwise delegate. -/
def executeJobManager (strategies : List DeploymentStrategy)
    (job : DeploymentJob) (context : DeploymentContext) : ExecOutcome :=
  match getStrategyForHost strategies context.host with
  | none => .error (noStrategyError context.host.os)
  | some st => st.execute job context

/-- Source: `WinRMClient.supports` = `isWindowsHost` (WinRMClient.ts lines 15-17,
34-36). -/
def winrmSupports (host : HostRecord) : Bool :=
  host.os == "windows"

/-! ## Host registry CSV import (src/unnamed/part_002,
`HostRegistry.importFromCsv`, lines 135-194)

The registry's host map (`Map<string, HostRecord>` keyed by `host.id`) is a
list of records with pairwise distinct ids; `Map.set` replaces in place for
an existing key and appends for a new one. -/

abbrev Registry := List HostRecord

def hasHost (reg : Registry) (i : String) : Bool :=
  reg.any (fun r => r.id == i)

def findHost (reg : Registry) (i : String) : Option HostRecord :=
  reg.find? (fun r => r.id == i)

def setHost (reg : Registry) (h : HostRecord) : Registry :=
  if hasHost reg h.id then reg.map (fun r => if r.id == h.id then h else r)
  else reg ++ [h]

structure ImportResult where
  added : Nat
  updated : Nat
  skipped : Nat
deriving DecidableEq, Repr

/-- The optional fields of the `defaults: Partial<HostRecord>` parameter
that `importFromCsv` reads. -/
structure HostDefaults where
  os : Option String := none
  enabled : Option Bool := none
  groups : Option (List String) := none
  notes : Option String := none
  lastSeenAt : Option String := none
deriving DecidableEq, Repr

/-- Character-level splitting on a single separator, structurally
recursive so that concrete imports evaluate inside the kernel.  For a
one-character separator this is exactly JS `String.prototype.split`
(including `"".split(sep) = [""]` and trailing empty segments). -/
def splitOnChar (sep : Char) : List Char → List (List Char)
  | [] => [[]]
  | c :: rest =>
    match splitOnChar sep rest with
    | [] => [[c]]
    | h :: t => if c = sep then [] :: h :: t else (c :: h) :: t

def isJsWhitespace (c : Char) : Bool :=
  c == ' ' || c == '\t' || c == '\r' || c == '\n'

/-- Models `trim()` restricted to the ASCII whitespace the import can actually
encounter (space, tab, carriage return, newline). -/
def trimChars (l : List Char) : List Char :=
  ((l.dropWhile isJsWhitespace).reverse.dropWhile isJsWhitespace).reverse

/-- Models `csvContent.split(/\r?\n/).map(trim).filter(nonempty)`.  Splitting on
a bare newline and trimming each piece is equivalent: the optional carriage
return is whitespace and is removed by `trim`. -/
def csvLines (csvContent : String) : List (List Char) :=
  ((splitOnChar '\n' csvContent.data).map trimChars).filter
    (fun l => l ≠ [])

structure ColumnIndexes where
  idIndex : Option Nat
  nameIndex : Option Nat
  addressIndex : Option Nat
  osIndex : Option Nat
  tagsIndex : Option Nat
deriving DecidableEq, Repr

/-- Header resolution: `indexOf` over the lowercased trimmed header cells,
with the French synonym tried first (`nom`/`name`, `ip`/`address`,
`tag`/`tags`).  A `-1` result of `indexOf` is `none` here. -/
def resolveColumns (headerLine : List Char) : ColumnIndexes :=
  let headers := (splitOnChar ',' headerLine).map
    (fun h => (trimChars h).map Char.toLower)
  { idIndex := headers.findIdx? (fun h => h == "id".data)
    nameIndex :=
      match headers.findIdx? (fun h => h == "nom".data) with
      | some k => some k
      | none => headers.findIdx? (fun h => h == "name".data)
    addressIndex :=
      match headers.findIdx? (fun h => h == "ip".data) with
      | some k => some k
      | none => headers.findIdx? (fun h => h == "address".data)
    osIndex := headers.findIdx? (fun h => h == "os".data)
    tagsIndex :=
      match headers.findIdx? (fun h => h == "tag".data) with
      | some k => some k
      | none => headers.findIdx? (fun h => h == "tags".data) }

/-- Models `rawColumns[idx]` where `idx` may be the `-1` of `indexOf` (`none`) or out of
range: both give `undefined` (`none`).  NOTE: an empty cell is a defined
empty string, so the `??` fallbacks do NOT apply to it. -/
def colAt (cols : List (List Char)) (idx : Option Nat) :
    Option (List Char) :=
  idx.bind (fun k => cols.get? k)

def rowColumns (line : List Char) : List (List Char) :=
  (splitOnChar ',' line).map trimChars

def rowId (idx : ColumnIndexes) (i : Nat) (cols : List (List Char)) :
    List Char :=
  (colAt cols idx.idIndex).getD ("host-" ++ toString i).data

def rowAddress (idx : ColumnIndexes) (cols : List (List Char)) :
    List Char :=
  (colAt cols idx.addressIndex).getD []

/-- Models `tagsRaw.split(/;|\|/)`: splitting on `;` then on `|` is the same as
splitting on the single-character alternation. -/
def rowTags (idx : ColumnIndexes) (cols : List (List Char)) :
    List String :=
  let tagsRaw := (colAt cols idx.tagsIndex).getD []
  if tagsRaw.length > 0 then
    (((((splitOnChar ';' tagsRaw).map
      (fun p => splitOnChar '|' p)).flatten).map trimChars).filter
        (fun t => t ≠ [])).map (fun t => String.mk t)
  else []

def rowRecord (defaults : HostDefaults) (idx : ColumnIndexes) (i : Nat)
    (cols : List (List Char)) : HostRecord :=
  let id := rowId idx i cols
  { id := String.mk id
    name := String.mk ((colAt cols idx.nameIndex).getD id)
    address := String.mk (rowAddress idx cols)
    os :=
      match colAt cols idx.osIndex with
      | some os => String.mk os
      | none => defaults.os.getD "windows"
    tags := rowTags idx cols
    enabled := defaults.enabled.getD true
    groups := defaults.groups.getD []
    notes := defaults.notes
    lastSeenAt := defaults.lastSeenAt }

structure ImportState where
  reg : Registry
  added : Nat
  updated : Nat
  skipped : Nat
deriving DecidableEq, Repr

/-- One iteration of the import loop (lines 156-189): a row with a missing
or empty address is skipped and counted; otherwise the record is stored,
counting `updated` when the id is already present and `added` otherwise. -/
def processRow (defaults : HostDefaults) (idx : ColumnIndexes) (i : Nat)
    (line : List Char) (st : ImportState) : ImportState :=
  let cols := rowColumns line
  if rowAddress idx cols = [] then
    { st with skipped := st.skipped + 1 }
  else
    let host := rowRecord defaults idx i cols
    if hasHost st.reg host.id then
      { st with reg := setHost st.reg host, updated := st.updated + 1 }
    else
      { st with reg := setHost st.reg host, added := st.added + 1 }

def importRows (defaults : HostDefaults) (idx : ColumnIndexes) :
    Nat → List (List Char) → ImportState → ImportState
  | _, [], st => st
  | i, line :: rest, st =>
      importRows defaults idx (i + 1) rest (processRow defaults idx i line st)

/-- Source: `HostRegistry.importFromCsv` (lines 135-194), as a function of the
registry host map: returns the counts and the updated map. -/
def importFromCsv (csvContent : String) (defaults : HostDefaults)
    (reg : Registry) : ImportResult × Registry :=
  let lines := csvLines csvContent
  match lines with
  | [] => ({ added := 0, updated := 0, skipped := 0 }, reg)
  | headerLine :: dataLines =>
    let idx := resolveColumns headerLine
    let st := importRows defaults idx 1 dataLines
      { reg := reg, added := 0, updated := 0, skipped := 0 }
    ({ added := st.added, updated := st.updated, skipped := st.skipped },
      st.reg)

/-! ## Structural invariants of reachable queue states -/

/-- Trace-independent well-formedness of a queue state: the job table is
keyed by distinct ids below the id counter, the waiting FIFO is exactly the
`queued` jobs and the active map exactly the `running` jobs (each without
duplicates), the active map respects `maxParallel`, the `skipped` status is
never assigned, `completedAt` is set exactly on terminal jobs and always in
the past, and every job has a stored execution context. -/
structure WF0 (s : QueueState) : Prop where
  ids_nodup : (s.jobs.map (fun j => j.id)).Nodup
  ids_lt : ∀ j ∈ s.jobs, j.id < s.nextId
  waiting_nodup : s.waiting.Nodup
  active_nodup : s.active.Nodup
  waiting_iff : ∀ i, i ∈ s.waiting ↔
    ∃ j ∈ s.jobs, j.id = i ∧ j.status = JobState.queued
  active_iff : ∀ i, i ∈ s.active ↔
    ∃ j ∈ s.jobs, j.id = i ∧ j.status = JobState.running
  active_le : s.active.length ≤ s.opts.maxParallel
  no_skipped : ∀ j ∈ s.jobs, j.status ≠ JobState.skipped
  completed_iff : ∀ j ∈ s.jobs, (j.metrics.completedAt.isSome ↔
    (j.status = JobState.succeeded ∨ j.status = JobState.failed ∨
      j.status = JobState.cancelled))
  times_lt : ∀ j ∈ s.jobs, ∀ t, j.metrics.completedAt = some t → t < s.now
  ctx_total : ∀ j ∈ s.jobs, (lookupContext s j.id).isSome

/-- Trace-indexed well-formedness: additionally, a job's `attempt` counter
equals the number of times its executor was invoked (`start` labels for its
id), started ids are below the id counter, and the job table holds one entry
per `enqueue` label. -/
structure WF (tr : List QueueLabel) (s : QueueState) extends WF0 s : Prop where
  attempt_eq : ∀ j ∈ s.jobs, j.metrics.attempt = countStarts j.id tr
  starts_lt : ∀ i, 0 < countStarts i tr → i < s.nextId
  enq_count : s.jobs.length = countEnq tr

/-! ## Concrete fixtures used by counterexamples and witnesses -/

def exHostLinux : HostRecord :=
  { id := "pc1", name := "Alpha", address := "10.0.0.1", os := "linux",
    tags := [], enabled := true }

def exProfile : DeploymentProfile :=
  { id := "salle-a", label := "Salle A", fqbn := "arduino:avr:uno",
    maxParallel := 2, timeoutMs := 1000 }

def exContext : DeploymentContext :=
  { profile := exProfile, host := exHostLinux }

def exInput : EnqueueJobInput :=
  { hostId := "pc1", action := .upload, profileId := "salle-a",
    context := exContext }

def exOpts (r : Nat) : JobQueueOptions :=
  { maxParallel := 2, retryCount := r, throttleMs := 0 }

def okResult : DeploymentResult := { status := .OK }

/-- Stand-in for `WinRMClient` as a registered strategy.  Its `execute`
body is never reached in the scenarios below (its `supports` predicate
rejects the linux host before execution), so a constant result suffices. -/
def winrmStrategy : DeploymentStrategy :=
  { id := "winrm", label := "WinRM (PowerShell)", supports := winrmSupports,
    execute := fun _ _ => .ok okResult }

def anyJob : DeploymentJob :=
  { id := 0, hostId := "pc1", action := .upload, profileId := "salle-a",
    mode := .normal, status := .queued, metrics := { queuedAt := 0 } }

/- C1: retryCount = 1, executor throws on every invocation. -/
def c1tr : List QueueLabel :=
  [.enq exInput, .start 0, .complete 0 (.error "boom")]

def c1s1 : QueueState := enqueueOp (initState (exOpts 1)) exInput
def c1s2 : QueueState := processOneOp c1s1
def c1s3 : QueueState := completeOp c1s2 0 (.error "boom")

/- C1 witness: retryCount = 0. -/
def c1wtr : List QueueLabel :=
  [.enq exInput, .start 0, .complete 0 (.error "panne")]

def c1w1 : QueueState := enqueueOp (initState (exOpts 0)) exInput
def c1w2 : QueueState := processOneOp c1w1
def c1w3 : QueueState := completeOp c1w2 0 (.error "panne")

/- C2: retryCount = 2, the executor outcome is the deployment manager's
`executeJob` with only the WinRM strategy registered and a linux host: it
throws the no-strategy configuration error. -/
def c2outcome : ExecOutcome := executeJobManager [winrmStrategy] anyJob exContext

def c2tr : List QueueLabel :=
  [.enq exInput, .start 0, .complete 0 c2outcome, .start 0]

def c2s1 : QueueState := enqueueOp (initState (exOpts 2)) exInput
def c2s2 : QueueState := processOneOp c2s1
def c2s3 : QueueState := completeOp c2s2 0 c2outcome
def c2s4 : QueueState := processOneOp c2s3

/- C2 witness: retryCount = 1, same configuration-error outcome. -/
def c2w1 : QueueState := enqueueOp (initState (exOpts 1)) exInput
def c2w2 : QueueState := processOneOp c2w1
def c2w3 : QueueState := completeOp c2w2 0 c2outcome

/- C4: retryCount = 1; the job runs once, fails terminally, then `cancel`
is called on the terminal job. -/
def c4s1 : QueueState := enqueueOp (initState (exOpts 1)) exInput
def c4s2 : QueueState := processOneOp c4s1
def c4s3 : QueueState := completeOp c4s2 0 (.error "boom")
def c4s4 : QueueState := cancelOp c4s3 0

/- C7: one job succeeds, a second waiting job is cancelled. -/
def c7s1 : QueueState := enqueueOp (initState (exOpts 1)) exInput
def c7s2 : QueueState := enqueueOp c7s1 exInput
def c7s3 : QueueState := processOneOp c7s2
def c7s4 : QueueState := completeOp c7s3 0 (.ok okResult)
def c7s5 : QueueState := cancelOp c7s4 1

/- C9 witness: a job that ran and succeeded. -/
def c9s1 : QueueState := enqueueOp (initState (exOpts 1)) exInput
def c9s2 : QueueState := processOneOp c9s1
def c9s3 : QueueState := completeOp c9s2 0 (.ok okResult)

/- Simple one-enqueue state for other witnesses. -/
def w1s1 : QueueState := enqueueOp (initState (exOpts 1)) exInput

/-- The success/failure rates exactly as §4.1 of the spec words them:
fractions of all *terminal* jobs (`succeeded`, `failed` or `cancelled`),
denominator defended against zero.  Written from the spec sentence, to be
compared with the source-derived `getTelemetry`. -/
def specTerminalRates (s : QueueState) : ℚ × ℚ :=
  let terminal := countStatus s .succeeded + countStatus s .failed +
    countStatus s .cancelled
  let denom : ℚ := if terminal = 0 then 1 else (terminal : ℚ)
  ((countStatus s .succeeded : ℚ) / denom,
    (countStatus s .failed : ℚ) / denom)

/-- The rates as the code computes them, restated over the job counts: the
denominator is the number of `succeeded`-or-`failed` jobs (cancelled jobs
excluded), defended against zero. -/
def codeRates (s : QueueState) : ℚ × ℚ :=
  let sf := countStatus s .succeeded + countStatus s .failed
  let denom : ℚ := if sf = 0 then 1 else (sf : ℚ)
  ((countStatus s .succeeded : ℚ) / denom,
    (countStatus s .failed : ℚ) / denom)

/- C8 fixtures. -/
def noDefaults : HostDefaults := {}

def c8csvTwoRows : String :=
  "id,name,address\npc1,Alpha,192.168.0.10\npc2,Beta,"

def c8csvFirst : String := "id,address\nh1,10.0.0.1"

def c8csvSecond : String := "id,address\nh1,10.0.0.2"

def c8import1 : ImportResult × Registry := importFromCsv c8csvFirst noDefaults []

def c8import2 : ImportResult × Registry :=
  importFromCsv c8csvSecond noDefaults c8import1.2

/- Remaining concrete traces and resulting job records. -/

def c2wtr : List QueueLabel :=
  [.enq exInput, .start 0, .complete 0 c2outcome]

def c4tr : List QueueLabel :=
  [.enq exInput, .start 0, .complete 0 (.error "boom"), .cancel 0]

def c7tr : List QueueLabel :=
  [.enq exInput, .enq exInput, .start 0, .complete 0 (.ok okResult),
    .cancel 1]

def c9tr : List QueueLabel :=
  [.enq exInput, .start 0, .complete 0 (.ok okResult)]

/-- The job of `c1s3` (and of `c4s3`): ran once, failed terminally. -/
def c1Job : DeploymentJob :=
  { id := 0, hostId := "pc1", action := .upload, profileId := "salle-a",
    mode := .normal, status := .failed,
    metrics := { queuedAt := 0, startedAt := some 1, completedAt := some 2,
                 elapsedMs := some 1, attempt := 1 },
    error := some "boom" }

/-- The job of `c1w3`: with `retryCount = 0`, one attempt then failed. -/
def c1wJob : DeploymentJob :=
  { id := 0, hostId := "pc1", action := .upload, profileId := "salle-a",
    mode := .normal, status := .failed,
    metrics := { queuedAt := 0, startedAt := some 1, completedAt := some 2,
                 elapsedMs := some 1, attempt := 1 },
    error := some "panne" }

/-- The job of `c2w3`: failed with the no-strategy configuration error. -/
def c2wJob : DeploymentJob :=
  { id := 0, hostId := "pc1", action := .upload, profileId := "salle-a",
    mode := .normal, status := .failed,
    metrics := { queuedAt := 0, startedAt := some 1, completedAt := some 2,
                 elapsedMs := some 1, attempt := 1 },
    error := some "Aucune stratégie de déploiement disponible pour linux" }

/-- The job of `c9s3`: ran once and succeeded. -/
def c9Job : DeploymentJob :=
  { id := 0, hostId := "pc1", action := .upload, profileId := "salle-a",
    mode := .normal, status := .succeeded,
    metrics := { queuedAt := 0, startedAt := some 1, completedAt := some 2,
                 elapsedMs := some 1, attempt := 1 },
    result := some okResult }

/-- Invariant satisfied by a job (with id `i`) whose executor has only ever
thrown, in a queue with `retryCount = R`: while `queued` it is either fresh
(`attempt = 0`) or within the retry budget (`attempt < R`); while `running`
its attempt counter is between 1 and `max R 1`; once `failed` it was
attempted exactly `max R 1` times and carries one of the thrown errors; and
it can be neither `succeeded` nor `cancelled`. -/
def ThrowingJobInv (R : Nat) (tr : List QueueLabel) (i : Nat)
    (j : DeploymentJob) : Prop :=
  (j.status = JobState.queued →
    j.metrics.attempt = 0 ∨ j.metrics.attempt < R) ∧
  (j.status = JobState.running →
    1 ≤ j.metrics.attempt ∧ j.metrics.attempt ≤ max R 1) ∧
  (j.status = JobState.failed →
    j.metrics.attempt = max R 1 ∧
    ∃ e, QueueLabel.complete i (Except.error e) ∈ tr ∧ j.error = some e) ∧
  j.status ≠ JobState.succeeded ∧ j.status ≠ JobState.cancelled

/-! ## Asynchronous refinement of the queue's event loop

The coarse `Step` treats each source handler as one uninterrupted section.
That is exact except at the source's two genuine suspension points, both
`await delay(...)` calls:

* `handleJobFailure`'s retry path stores the requeued job, pushes its id
  onto the FIFO and publishes a snapshot, then rests 100 ms (line 501)
  before `executeJob`'s `finally` block deletes the id from `activeJobs`
  (line 452).  During that window the job sits in the FIFO and the active
  map at once — and the `finally` block eventually deletes whatever entry
  the id has then, even one belonging to a fresh run started meanwhile.
* a `processQueue` iteration pops an id and fetches the job and context
  (lines 381-391), and when `throttleMs > 0` and the previous start was
  recent it sleeps (lines 394-400) before `startJob` runs on the records
  captured before the sleep; the `processing` flag stays set for the whole
  pass, so no other iteration pops during the sleep.

The refined system below makes both windows explicit.  `AsyncQueueState`
extends the queue state with the executor invocations in flight (each with
the `job` record its `executeJob` call closed over — completion handlers
work on that captured record, not on the current table entry), the ids
whose retry handler is inside the 100 ms delay with its `finally` block
still due, and the job/context pair a sleeping scheduling iteration has
popped but not yet started.  Steps may interleave freely at those
suspension points, which covers every schedule the source event loop can
produce. -/

structure AsyncQueueState where
  base : QueueState
  inflight : List DeploymentJob
  pendingRetryFin : List Nat
  pendingStart : Option (DeploymentJob × DeploymentContext)
deriving DecidableEq, Repr

def initStateA (opts : JobQueueOptions) : AsyncQueueState :=
  { base := initState opts, inflight := [], pendingRetryFin := [],
    pendingStart := none }

/-- Models `Map.set` on `activeJobs` exactly: append for a new key, keep
the single existing entry for a present one.  The coarse `startJobOp`
appends unconditionally, which agrees with `Map.set` there because in the
coarse system a started id is never already active; in the refined system
a job restarted during its retry window is. -/
def activeSet (active : List Nat) (i : Nat) : List Nat :=
  if i ∈ active then active else active ++ [i]

/-- Refined `startJob` (lines 407-426): the running record also joins the
in-flight executor invocations. -/
def startJobOpA (s : AsyncQueueState) (job : DeploymentJob) :
    AsyncQueueState :=
  let runningJob := runningJobOf s.base job
  { s with
    base := { s.base with
      jobs := replaceJob s.base.jobs job.id runningJob
      active := activeSet s.base.active job.id
      events := s.base.events ++ [.jobStarted job.id]
      now := s.base.now + 1 }
    inflight := s.inflight ++ [runningJob] }

def enqueueOpA (s : AsyncQueueState) (inp : EnqueueJobInput) :
    AsyncQueueState :=
  { s with base := enqueueOp s.base inp }

def cancelOpA (s : AsyncQueueState) (i : Nat) : AsyncQueueState :=
  { s with base := cancelOp s.base i }

/-- One non-sleeping iteration of the refined scheduling loop: pop and
start in one synchronous section (no throttle sleep reached). -/
def processOneOpA (s : AsyncQueueState) : AsyncQueueState :=
  if s.base.active.length < s.base.opts.maxParallel then
    match s.base.waiting with
    | [] => s
    | i :: rest =>
      let s1 : AsyncQueueState :=
        { s with base := { s.base with waiting := rest } }
      match findJob s1.base i, lookupContext s1.base i with
      | some job, some _ => startJobOpA s1 job
      | _, _ => s1
  else s

/-- A scheduling iteration that reaches the throttle sleep: the id is
popped and the job and context are fetched (lines 381-391), then the pass
suspends in `delay` (lines 394-400) holding the captured pair. -/
def popThrottleOp (s : AsyncQueueState) : AsyncQueueState :=
  if s.base.active.length < s.base.opts.maxParallel then
    match s.base.waiting with
    | [] => s
    | i :: rest =>
      let s1 : AsyncQueueState :=
        { s with base := { s.base with waiting := rest } }
      match findJob s1.base i, lookupContext s1.base i with
      | some job, some ctx => { s1 with pendingStart := some (job, ctx) }
      | _, _ => s1
  else s

/-- The sleeping iteration resumes after the throttle delay and calls
`startJob` (line 400) on the pair captured before the sleep, regardless of
what happened to the job's table entry meanwhile. -/
def startPendingOp (s : AsyncQueueState) : AsyncQueueState :=
  match s.pendingStart with
  | none => s
  | some (job, _) => startJobOpA { s with pendingStart := none } job

/-- Refined completion of the in-flight executor invocation that captured
the record `jb`.  The success path and the terminal-failure path run their
handler and `executeJob`'s `finally` block in one synchronous section
(neither contains an intervening `delay`); the retry path instead stops at
`await delay(100)` (line 501): the requeued job is back on the FIFO and
the snapshot published while its id is still in the active map, and the id
joins `pendingRetryFin` with the `finally` block still due. -/
def completeOpA (s : AsyncQueueState) (jb : DeploymentJob)
    (outcome : ExecOutcome) : AsyncQueueState :=
  let s0 : AsyncQueueState := { s with inflight := s.inflight.erase jb }
  match outcome with
  | .ok result =>
    let completedJob := completedJobOf s0.base jb result
    let b1 :=
      { s0.base with jobs := replaceJob s0.base.jobs jb.id completedJob }
    let b2 := trackMetrics b1 completedJob
    { s0 with base := { b2 with
        events := b2.events ++ [.jobCompleted jb.id]
        active := b2.active.erase jb.id
        now := b2.now + 1 } }
  | .error e =>
    if jb.metrics.attempt < s0.base.opts.retryCount then
      let retriedJob := retriedJobOf jb e
      { s0 with
        base := { s0.base with
          jobs := replaceJob s0.base.jobs jb.id retriedJob
          waiting := s0.base.waiting ++ [jb.id]
          events := s0.base.events ++
            [.jobRetried jb.id (retriedJob.metrics.attempt + 1)]
          now := s0.base.now + 1 }
        pendingRetryFin := s0.pendingRetryFin ++ [jb.id] }
    else
      { s0 with base := { s0.base with
          jobs := replaceJob s0.base.jobs jb.id (failedJobOf s0.base jb e)
          events := s0.base.events ++ [.jobFailed jb.id]
          active := s0.base.active.erase jb.id
          now := s0.base.now + 1 } }

/-- The 100 ms retry delay of job `i` elapses: `executeJob`'s `finally`
block (line 452) now runs, deleting the id from the active map — even if
the entry it deletes belongs to a fresh invocation of the same job started
from the FIFO during the window. -/
def retryFinallyOp (s : AsyncQueueState) (i : Nat) : AsyncQueueState :=
  { s with
    base := { s.base with
      active := s.base.active.erase i
      now := s.base.now + 1 }
    pendingRetryFin := s.pendingRetryFin.erase i }

inductive AsyncLabel
  | enq (inp : EnqueueJobInput)
  | start (i : Nat)
  | popThrottle (i : Nat)
  | startPending (i : Nat)
  | complete (jb : DeploymentJob) (outcome : ExecOutcome)
  | retryFin (i : Nat)
  | cancel (i : Nat)
deriving DecidableEq, Repr

/-- Atomic transitions of the refined system: the synchronous sections
between the source's suspension points.  `start` and `popThrottle` both
require the scheduling guard and no other iteration sleeping
(`pendingStart = none`, the `processing` flag); `popThrottle` additionally
requires a positive `throttleMs`, since with `throttleMs = 0` the source
never sleeps between pop and start; `complete` fires for an in-flight
captured record; `retryFin` fires for an id whose retry delay is pending. -/
inductive StepA : AsyncQueueState → AsyncLabel → AsyncQueueState → Prop
  | enq (s : AsyncQueueState) (inp : EnqueueJobInput) :
      StepA s (.enq inp) (enqueueOpA s inp)
  | start (s : AsyncQueueState) (i : Nat) (rest : List Nat)
      (hw : s.base.waiting = i :: rest)
      (hcap : s.base.active.length < s.base.opts.maxParallel)
      (hps : s.pendingStart = none) :
      StepA s (.start i) (processOneOpA s)
  | popThrottle (s : AsyncQueueState) (i : Nat) (rest : List Nat)
      (hw : s.base.waiting = i :: rest)
      (hcap : s.base.active.length < s.base.opts.maxParallel)
      (hps : s.pendingStart = none)
      (hth : 0 < s.base.opts.throttleMs) :
      StepA s (.popThrottle i) (popThrottleOp s)
  | startPending (s : AsyncQueueState) (job : DeploymentJob)
      (ctx : DeploymentContext) (h : s.pendingStart = some (job, ctx)) :
      StepA s (.startPending job.id) (startPendingOp s)
  | complete (s : AsyncQueueState) (jb : DeploymentJob)
      (outcome : ExecOutcome) (h : jb ∈ s.inflight) :
      StepA s (.complete jb outcome) (completeOpA s jb outcome)
  | retryFin (s : AsyncQueueState) (i : Nat) (h : i ∈ s.pendingRetryFin) :
      StepA s (.retryFin i) (retryFinallyOp s i)
  | cancel (s : AsyncQueueState) (i : Nat) :
      StepA s (.cancel i) (cancelOpA s i)

/-- States of the refined system reachable from a freshly constructed
queue, with the trace of labels that produced them. -/
inductive ReachA : List AsyncLabel → AsyncQueueState → Prop
  | init (opts : JobQueueOptions) : ReachA [] (initStateA opts)
  | snoc {tr : List AsyncLabel} {s : AsyncQueueState} {l : AsyncLabel}
      {s2 : AsyncQueueState} :
      ReachA tr s → StepA s l s2 → ReachA (tr ++ [l]) s2

def countEnqA (tr : List AsyncLabel) : Nat :=
  (tr.filter (fun l => match l with | .enq _ => true | _ => false)).length

/-! ## Refined-system fixtures: the retry-window race

`maxParallel = 2`, `retryCount = 2`, `throttleMs = 0`.  Job 0 is enqueued,
started and throws; its retry handler requeues it and suspends in
`delay(100)` with the job in the FIFO and the active map at once
(`raceS3`).  During the window job 1's enqueue triggers a scheduling pass
that restarts job 0 (still occupying its active slot, so `Map.set` leaves
the map unchanged) and then starts job 1; job 2 is enqueued but the map is
full.  The delayed `finally` then deletes the restarted job 0's active
entry while its second run is in flight, and the next scheduling pass
starts job 2: three jobs run under `maxParallel = 2` (`raceS9`). -/

def raceOpts : JobQueueOptions :=
  { maxParallel := 2, retryCount := 2, throttleMs := 0 }

/-- The running record captured by the first executor invocation of job 0
in the race scenario. -/
def raceRun1 : DeploymentJob :=
  { id := 0, hostId := "pc1", action := .upload, profileId := "salle-a",
    mode := .normal, status := .running,
    metrics := { queuedAt := 0, startedAt := some 1, attempt := 1 } }

def raceS1 : AsyncQueueState := enqueueOpA (initStateA raceOpts) exInput
def raceS2 : AsyncQueueState := processOneOpA raceS1
def raceS3 : AsyncQueueState := completeOpA raceS2 raceRun1 (.error "boom")
def raceS4 : AsyncQueueState := enqueueOpA raceS3 exInput
def raceS5 : AsyncQueueState := processOneOpA raceS4
def raceS6 : AsyncQueueState := processOneOpA raceS5
def raceS7 : AsyncQueueState := enqueueOpA raceS6 exInput
def raceS8 : AsyncQueueState := retryFinallyOp raceS7 0
def raceS9 : AsyncQueueState := processOneOpA raceS8

def raceTr3 : List AsyncLabel :=
  [.enq exInput, .start 0, .complete raceRun1 (.error "boom")]

def raceTr5 : List AsyncLabel := raceTr3 ++ [.enq exInput, .start 0]

def raceTr9 : List AsyncLabel :=
  raceTr5 ++ [.start 1, .enq exInput, .retryFin 0, .start 2]

/-! ## Refined-system fixtures: cancellation undone by a stale start

`maxParallel = 2`, `retryCount = 1`, `throttleMs = 100`.  Jobs 0 and 1 are
enqueued; job 0 starts; the same pass pops job 1 and suspends in the
throttle sleep holding the fetched records.  `cancel 1` then succeeds (the
popped job is in neither the FIFO nor the active map) and marks job 1
`cancelled` (`revS5`); the pass resumes and `startJob` runs on the record
captured before the sleep, putting the cancelled job back to `running`
(`revS6`). -/

def revOpts : JobQueueOptions :=
  { maxParallel := 2, retryCount := 1, throttleMs := 100 }

/-- The queued record of job 1 captured by the sleeping scheduling pass. -/
def revCaptured : DeploymentJob :=
  { id := 1, hostId := "pc1", action := .upload, profileId := "salle-a",
    mode := .normal, status := .queued, metrics := { queuedAt := 1 } }

def revS1 : AsyncQueueState := enqueueOpA (initStateA revOpts) exInput
def revS2 : AsyncQueueState := enqueueOpA revS1 exInput
def revS3 : AsyncQueueState := processOneOpA revS2
def revS4 : AsyncQueueState := popThrottleOp revS3
def revS5 : AsyncQueueState := cancelOpA revS4 1
def revS6 : AsyncQueueState := startPendingOp revS5

def revTr5 : List AsyncLabel :=
  [.enq exInput, .enq exInput, .start 0, .popThrottle 1, .cancel 1]

def revTr6 : List AsyncLabel := revTr5 ++ [.startPending 1]

/-! # Theorems

## List-level helpers -/

theorem lookup_append_isSome {l1 l2 : List (Nat × DeploymentContext)}
    {i : Nat} (h : (l1.lookup i).isSome) : ((l1 ++ l2).lookup i).isSome := by
  induction l1 with
  | nil => simp [List.lookup] at h
  | cons a rest ih =>
    obtain ⟨k, v⟩ := a
    by_cases hi : i = k
    · simp [List.lookup, hi]
    · have hb : (i == k) = false := by simpa using hi
      rw [List.cons_append, List.lookup, hb]
      rw [List.lookup, hb] at h
      exact ih h

theorem lookup_append_right_isSome {l1 l2 : List (Nat × DeploymentContext)}
    {i : Nat} (h : (l2.lookup i).isSome) : ((l1 ++ l2).lookup i).isSome := by
  induction l1 with
  | nil => simpa using h
  | cons a rest ih =>
    obtain ⟨k, v⟩ := a
    by_cases hi : i = k
    · simp [List.lookup, hi]
    · have hb : (i == k) = false := by simpa using hi
      rw [List.cons_append, List.lookup, hb]
      exact ih

theorem replaceJob_cons (a : DeploymentJob) (rest : List DeploymentJob)
    (i : Nat) (j2 : DeploymentJob) :
    replaceJob (a :: rest) i j2 =
      (if a.id == i then j2 else a) :: replaceJob rest i j2 := rfl

theorem find?_id_replace_self {jobs : List DeploymentJob} {i : Nat}
    {j j2 : DeploymentJob}
    (h : jobs.find? (fun a => a.id == i) = some j) (hid : j2.id = i) :
    (replaceJob jobs i j2).find? (fun a => a.id == i) = some j2 := by
  induction jobs with
  | nil => simp [List.find?] at h
  | cons a rest ih =>
    rw [replaceJob_cons]
    by_cases ha : a.id = i
    · rw [if_pos (by simpa using ha)]
      exact List.find?_cons_of_pos _ (by simp [hid])
    · rw [if_neg (by simpa using ha)]
      rw [List.find?_cons_of_neg _ (by simpa using ha)]
      rw [List.find?_cons_of_neg _ (by simpa using ha)] at h
      exact ih h

theorem find?_id_replace_ne {jobs : List DeploymentJob} {i i2 : Nat}
    {j2 : DeploymentJob} (hid : j2.id = i2) (hne : i2 ≠ i) :
    (replaceJob jobs i2 j2).find? (fun a => a.id == i) =
      jobs.find? (fun a => a.id == i) := by
  induction jobs with
  | nil => simp [replaceJob]
  | cons a rest ih =>
    rw [replaceJob_cons]
    by_cases ha2 : a.id = i2
    · rw [if_pos (by simpa using ha2)]
      have hja : j2.id ≠ i := by rw [hid]; exact hne
      have haa : a.id ≠ i := by rw [ha2]; exact hne
      rw [List.find?_cons_of_neg _ (by simpa using hja)]
      rw [List.find?_cons_of_neg _ (by simpa using haa)]
      exact ih
    · rw [if_neg (by simpa using ha2)]
      by_cases hai : a.id = i
      · rw [List.find?_cons_of_pos _ (by simpa using hai)]
        rw [List.find?_cons_of_pos _ (by simpa using hai)]
      · rw [List.find?_cons_of_neg _ (by simpa using hai)]
        rw [List.find?_cons_of_neg _ (by simpa using hai)]
        exact ih

theorem mem_replaceJob {jobs : List DeploymentJob} {i : Nat}
    {j2 x : DeploymentJob} (hx : x ∈ replaceJob jobs i j2) :
    x = j2 ∨ (x ∈ jobs ∧ x.id ≠ i) := by
  unfold replaceJob at hx
  obtain ⟨a, ha, hax⟩ := List.mem_map.mp hx
  by_cases h : a.id = i
  · left
    rw [if_pos (by simpa using h)] at hax
    exact hax.symm
  · right
    rw [if_neg (by simpa using h)] at hax
    exact ⟨hax ▸ ha, hax ▸ h⟩

theorem replaceJob_mem_of_mem {jobs : List DeploymentJob} {i : Nat}
    {j2 x : DeploymentJob} (hx : x ∈ jobs) (hne : x.id ≠ i) :
    x ∈ replaceJob jobs i j2 := by
  unfold replaceJob
  have : (if x.id == i then j2 else x) = x := by
    rw [if_neg (by simpa using hne)]
  exact this ▸ List.mem_map_of_mem _ hx

theorem replaceJob_map_id {jobs : List DeploymentJob} {i : Nat}
    {j2 : DeploymentJob} (hid : j2.id = i) :
    (replaceJob jobs i j2).map (fun j => j.id) =
      jobs.map (fun j => j.id) := by
  unfold replaceJob
  rw [List.map_map]
  apply List.map_congr_left
  intro a _
  by_cases h : a.id = i
  · simp [h, hid]
  · simp [h]

theorem find?_id_of_mem {jobs : List DeploymentJob} {j : DeploymentJob}
    (hn : (jobs.map (fun j => j.id)).Nodup) (hj : j ∈ jobs) :
    jobs.find? (fun a => a.id == j.id) = some j := by
  induction jobs with
  | nil => simp at hj
  | cons a rest ih =>
    simp only [List.map_cons, List.nodup_cons] at hn
    rcases List.mem_cons.mp hj with h | h
    · subst h
      exact List.find?_cons_of_pos _ (by simp)
    · have hne : a.id ≠ j.id := by
        intro he
        exact hn.1 (he ▸ List.mem_map_of_mem (fun j => j.id) h)
      rw [List.find?_cons_of_neg _ (by simpa using hne)]
      exact ih hn.2 h

theorem findJob_of_mem {s : QueueState} {j : DeploymentJob}
    (hn : (s.jobs.map (fun j => j.id)).Nodup) (hj : j ∈ s.jobs) :
    findJob s j.id = some j :=
  find?_id_of_mem hn hj

theorem findJob_eq_some {s : QueueState} {i : Nat} {j : DeploymentJob}
    (h : findJob s i = some j) : j ∈ s.jobs ∧ j.id = i := by
  unfold findJob at h
  refine ⟨List.mem_of_find?_eq_some h, ?_⟩
  have := List.find?_some h
  simpa using this

theorem countStarts_append (i : Nat) (tr : List QueueLabel)
    (l : QueueLabel) :
    countStarts i (tr ++ [l]) = countStarts i tr +
      (match l with | .start k => if k == i then 1 else 0 | _ => 0) := by
  unfold countStarts
  rw [List.filter_append, List.length_append]
  congr 1
  cases l with
  | start k =>
    by_cases h : k = i
    · simp [h]
    · have hb : (k == i) = false := by simpa using h
      simp [h, hb, List.filter]
  | enq inp => simp [List.filter]
  | complete k o => simp [List.filter]
  | cancel k => simp [List.filter]

theorem countEnq_append (tr : List QueueLabel) (l : QueueLabel) :
    countEnq (tr ++ [l]) = countEnq tr +
      (match l with | .enq _ => 1 | _ => 0) := by
  unfold countEnq
  rw [List.filter_append, List.length_append]
  congr 1
  cases l <;> simp [List.filter]

/-! ## Preservation of the structural invariant -/

theorem wf0_enqueueOp {s : QueueState} (h : WF0 s) (inp : EnqueueJobInput) :
    WF0 (enqueueOp s inp) := by
  obtain ⟨idsN, idsLt, wN, aN, wIff, aIff, aLe, noSk, cIff, tLt, ctxT⟩ := h
  have hfresh : s.nextId ∉ s.jobs.map (fun j => j.id) := by
    intro hmem
    obtain ⟨j, hj, hje⟩ := List.mem_map.mp hmem
    exact absurd hje (Nat.ne_of_lt (idsLt j hj))
  constructor
  · simp only [enqueueOp, createInitialJob, List.map_append, List.map_cons,
      List.map_nil]
    rw [← List.concat_eq_append]
    exact idsN.concat hfresh
  · intro j hj
    simp only [enqueueOp, createInitialJob, List.mem_append,
      List.mem_singleton] at hj
    rcases hj with hj | hj
    · exact Nat.lt_succ_of_lt (idsLt j hj)
    · simp [enqueueOp, hj]
  · simp only [enqueueOp, createInitialJob]
    rw [← List.concat_eq_append]
    refine wN.concat ?_
    intro hmem
    obtain ⟨j, hj, hje, _⟩ := (wIff s.nextId).mp hmem
    exact absurd hje (Nat.ne_of_lt (idsLt j hj))
  · simpa [enqueueOp] using aN
  · intro i
    simp only [enqueueOp, createInitialJob, List.mem_append,
      List.mem_singleton]
    constructor
    · rintro (hi | hi)
      · obtain ⟨j, hj, hje, hst⟩ := (wIff i).mp hi
        exact ⟨j, Or.inl hj, hje, hst⟩
      · exact ⟨_, Or.inr rfl, hi.symm, rfl⟩
    · rintro ⟨j, hj | hj, hje, hst⟩
      · exact Or.inl ((wIff i).mpr ⟨j, hj, hje, hst⟩)
      · subst hj
        exact Or.inr hje.symm
  · intro i
    simp only [enqueueOp, createInitialJob, List.mem_append,
      List.mem_singleton]
    constructor
    · intro hi
      obtain ⟨j, hj, hje, hst⟩ := (aIff i).mp hi
      exact ⟨j, Or.inl hj, hje, hst⟩
    · rintro ⟨j, hj | hj, hje, hst⟩
      · exact (aIff i).mpr ⟨j, hj, hje, hst⟩
      · subst hj
        simp at hst
  · simpa [enqueueOp] using aLe
  · intro j hj
    simp only [enqueueOp, createInitialJob, List.mem_append,
      List.mem_singleton] at hj
    rcases hj with hj | hj
    · exact noSk j hj
    · simp [hj]
  · intro j hj
    simp only [enqueueOp, createInitialJob, List.mem_append,
      List.mem_singleton] at hj
    rcases hj with hj | hj
    · exact cIff j hj
    · simp [hj]
  · intro j hj t ht
    simp only [enqueueOp, createInitialJob, List.mem_append,
      List.mem_singleton] at hj
    rcases hj with hj | hj
    · have := tLt j hj t ht
      simp only [enqueueOp]
      omega
    · subst hj
      simp at ht
  · intro j hj
    simp only [enqueueOp, createInitialJob, List.mem_append,
      List.mem_singleton] at hj
    rcases hj with hj | hj
    · have hs : (s.contextByJob.lookup j.id).isSome := ctxT j hj
      simp only [lookupContext, enqueueOp]
      exact lookup_append_isSome hs
    · subst hj
      simp only [lookupContext, enqueueOp, createInitialJob]
      refine lookup_append_right_isSome ?_
      simp [List.lookup]

/-! Projection facts for the job-transforming helpers, all definitional. -/

@[simp] theorem runningJobOf_id (s : QueueState) (job : DeploymentJob) :
    (runningJobOf s job).id = job.id := rfl

@[simp] theorem runningJobOf_status (s : QueueState) (job : DeploymentJob) :
    (runningJobOf s job).status = JobState.running := rfl

@[simp] theorem runningJobOf_attempt (s : QueueState) (job : DeploymentJob) :
    (runningJobOf s job).metrics.attempt = job.metrics.attempt + 1 := rfl

@[simp] theorem runningJobOf_completedAt (s : QueueState)
    (job : DeploymentJob) :
    (runningJobOf s job).metrics.completedAt = job.metrics.completedAt := rfl

@[simp] theorem runningJobOf_startedAt (s : QueueState)
    (job : DeploymentJob) :
    (runningJobOf s job).metrics.startedAt = some s.now := rfl

@[simp] theorem cancelledJobOf_id (s : QueueState) (job : DeploymentJob) :
    (cancelledJobOf s job).id = job.id := rfl

@[simp] theorem cancelledJobOf_status (s : QueueState) (job : DeploymentJob) :
    (cancelledJobOf s job).status = JobState.cancelled := rfl

@[simp] theorem cancelledJobOf_attempt (s : QueueState)
    (job : DeploymentJob) :
    (cancelledJobOf s job).metrics.attempt = job.metrics.attempt := rfl

@[simp] theorem cancelledJobOf_startedAt (s : QueueState)
    (job : DeploymentJob) :
    (cancelledJobOf s job).metrics.startedAt = job.metrics.startedAt := rfl

@[simp] theorem cancelledJobOf_completedAt (s : QueueState)
    (job : DeploymentJob) :
    (cancelledJobOf s job).metrics.completedAt = some s.now := rfl

@[simp] theorem cancelledJobOf_elapsedMs (s : QueueState)
    (job : DeploymentJob) :
    (cancelledJobOf s job).metrics.elapsedMs = some 0 := rfl

@[simp] theorem completedJobOf_id (s : QueueState) (job : DeploymentJob)
    (result : DeploymentResult) :
    (completedJobOf s job result).id = job.id := rfl

@[simp] theorem completedJobOf_attempt (s : QueueState)
    (job : DeploymentJob) (result : DeploymentResult) :
    (completedJobOf s job result).metrics.attempt =
      job.metrics.attempt := rfl

@[simp] theorem completedJobOf_completedAt (s : QueueState)
    (job : DeploymentJob) (result : DeploymentResult) :
    (completedJobOf s job result).metrics.completedAt = some s.now := rfl

@[simp] theorem retriedJobOf_id (job : DeploymentJob) (e : String) :
    (retriedJobOf job e).id = job.id := rfl

@[simp] theorem retriedJobOf_status (job : DeploymentJob) (e : String) :
    (retriedJobOf job e).status = JobState.queued := rfl

@[simp] theorem retriedJobOf_attempt (job : DeploymentJob) (e : String) :
    (retriedJobOf job e).metrics.attempt = job.metrics.attempt := rfl

@[simp] theorem retriedJobOf_completedAt (job : DeploymentJob) (e : String) :
    (retriedJobOf job e).metrics.completedAt = none := rfl

@[simp] theorem retriedJobOf_startedAt (job : DeploymentJob) (e : String) :
    (retriedJobOf job e).metrics.startedAt = none := rfl

@[simp] theorem retriedJobOf_error (job : DeploymentJob) (e : String) :
    (retriedJobOf job e).error = some e := rfl

@[simp] theorem failedJobOf_id (s : QueueState) (job : DeploymentJob)
    (e : String) : (failedJobOf s job e).id = job.id := rfl

@[simp] theorem failedJobOf_status (s : QueueState) (job : DeploymentJob)
    (e : String) : (failedJobOf s job e).status = JobState.failed := rfl

@[simp] theorem failedJobOf_attempt (s : QueueState) (job : DeploymentJob)
    (e : String) :
    (failedJobOf s job e).metrics.attempt = job.metrics.attempt := rfl

@[simp] theorem failedJobOf_completedAt (s : QueueState)
    (job : DeploymentJob) (e : String) :
    (failedJobOf s job e).metrics.completedAt = some s.now := rfl

@[simp] theorem failedJobOf_startedAt (s : QueueState)
    (job : DeploymentJob) (e : String) :
    (failedJobOf s job e).metrics.startedAt = job.metrics.startedAt := rfl

@[simp] theorem failedJobOf_error (s : QueueState) (job : DeploymentJob)
    (e : String) : (failedJobOf s job e).error = some e := rfl

theorem eq_of_mem_id {jobs : List DeploymentJob}
    (hn : (jobs.map (fun j => j.id)).Nodup) {j1 j2 : DeploymentJob}
    (h1 : j1 ∈ jobs) (h2 : j2 ∈ jobs) (he : j1.id = j2.id) : j1 = j2 := by
  have f1 := find?_id_of_mem hn h1
  have f2 := find?_id_of_mem hn h2
  rw [he] at f1
  exact Option.some.inj (f1.symm.trans f2)

theorem waiting_active_disjoint {s : QueueState} (h : WF0 s) {i : Nat}
    (hw : i ∈ s.waiting) : i ∉ s.active := by
  intro ha
  obtain ⟨j1, hj1, he1, hs1⟩ := (h.waiting_iff i).mp hw
  obtain ⟨j2, hj2, he2, hs2⟩ := (h.active_iff i).mp ha
  have he : j1 = j2 := eq_of_mem_id h.ids_nodup hj1 hj2 (he1.trans he2.symm)
  rw [he, hs2] at hs1
  cases hs1

theorem mem_replaceJob_iff {jobs : List DeploymentJob} {i : Nat}
    {jold j2 : DeploymentJob} (hold : jold ∈ jobs) (hid : jold.id = i)
    {x : DeploymentJob} :
    x ∈ replaceJob jobs i j2 ↔ (x = j2 ∨ (x ∈ jobs ∧ x.id ≠ i)) := by
  constructor
  · exact mem_replaceJob
  · rintro (rfl | ⟨hx, hne⟩)
    · exact List.mem_map.mpr ⟨jold, hold, by rw [if_pos (by simpa using hid)]⟩
    · exact replaceJob_mem_of_mem hx hne

theorem processOneOp_eq {s : QueueState} {i : Nat} {rest : List Nat}
    (h : WF0 s) (hw : s.waiting = i :: rest)
    (hcap : s.active.length < s.opts.maxParallel) :
    ∃ job, findJob s i = some job ∧ job.status = JobState.queued ∧
      job.id = i ∧ job ∈ s.jobs ∧
      processOneOp s = startJobOp { s with waiting := rest } job := by
  have hi : i ∈ s.waiting := by rw [hw]; exact List.mem_cons_self _ _
  obtain ⟨j, hj, hje, hst⟩ := (h.waiting_iff i).mp hi
  have hfind : findJob s i = some j := hje ▸ findJob_of_mem h.ids_nodup hj
  have hctx : (lookupContext s i).isSome := hje ▸ h.ctx_total j hj
  obtain ⟨c, hc⟩ := Option.isSome_iff_exists.mp hctx
  refine ⟨j, hfind, hst, hje, hj, ?_⟩
  have hfind1 : findJob { s with waiting := rest } i = some j := hfind
  have hc1 : lookupContext { s with waiting := rest } i = some c := hc
  unfold processOneOp
  rw [if_pos hcap, hw]
  simp only [hfind1, hc1]

theorem completedAt_none_of_queued {s : QueueState} (h : WF0 s)
    {job : DeploymentJob} (hj : job ∈ s.jobs)
    (hst : job.status = JobState.queued) :
    job.metrics.completedAt = none := by
  cases hcc : job.metrics.completedAt with
  | none => rfl
  | some t =>
    have h2 := (h.completed_iff job hj).mp (by rw [hcc]; rfl)
    rw [hst] at h2
    simp at h2

theorem wf0_startJobOp {s : QueueState} {i : Nat} {rest : List Nat}
    {job : DeploymentJob} (h : WF0 s) (hw : s.waiting = i :: rest)
    (hcap : s.active.length < s.opts.maxParallel)
    (hst : job.status = JobState.queued) (hid : job.id = i)
    (hj : job ∈ s.jobs) :
    WF0 (startJobOp { s with waiting := rest } job) := by
  have hrestN : rest.Nodup := (List.nodup_cons.mp (hw ▸ h.waiting_nodup)).2
  have hinotrest : i ∉ rest := (List.nodup_cons.mp (hw ▸ h.waiting_nodup)).1
  have hina : i ∉ s.active :=
    waiting_active_disjoint h (by rw [hw]; exact List.mem_cons_self _ _)
  have hcnone : job.metrics.completedAt = none :=
    completedAt_none_of_queued h hj hst
  have hs1 : runningJobOf { s with waiting := rest } job =
      runningJobOf s job := rfl
  have hmem_iff : ∀ x : DeploymentJob,
      x ∈ replaceJob s.jobs job.id (runningJobOf s job) ↔
      (x = runningJobOf s job ∨ (x ∈ s.jobs ∧ x.id ≠ job.id)) :=
    fun x => mem_replaceJob_iff hj rfl
  constructor
  · simp only [startJobOp, hs1]
    have hm := @replaceJob_map_id s.jobs job.id (runningJobOf s job) rfl
    rw [hm]
    exact h.ids_nodup
  · intro x hx
    simp only [startJobOp, hs1] at hx
    rcases (hmem_iff x).mp hx with rfl | ⟨hx2, _⟩
    · simpa [startJobOp] using h.ids_lt job hj
    · simpa [startJobOp] using h.ids_lt x hx2
  · simpa [startJobOp] using hrestN
  · simp only [startJobOp]
    rw [← List.concat_eq_append]
    exact h.active_nodup.concat (hid ▸ hina)
  · intro i2
    simp only [startJobOp, hs1]
    constructor
    · intro hi2
      have hi2w : i2 ∈ s.waiting := by
        rw [hw]; exact List.mem_cons_of_mem _ hi2
      obtain ⟨j3, hj3, he3, hs3⟩ := (h.waiting_iff i2).mp hi2w
      have hne : i2 ≠ i := fun he => hinotrest (he ▸ hi2)
      refine ⟨j3, (hmem_iff j3).mpr (Or.inr ⟨hj3, ?_⟩), he3, hs3⟩
      rw [he3, hid]
      exact hne
    · rintro ⟨x, hx, hex, hsx⟩
      rcases (hmem_iff x).mp hx with rfl | ⟨hx2, hne⟩
      · rw [runningJobOf_status] at hsx
        cases hsx
      · have hxw : i2 ∈ s.waiting := (h.waiting_iff i2).mpr ⟨x, hx2, hex, hsx⟩
        rw [hw] at hxw
        rcases List.mem_cons.mp hxw with rfl | h2
        · exact absurd (hex.trans hid.symm) hne
        · exact h2
  · intro i2
    simp only [startJobOp, hs1]
    rw [List.mem_append, List.mem_singleton]
    constructor
    · rintro (hi2 | rfl)
      · obtain ⟨j3, hj3, he3, hs3⟩ := (h.active_iff i2).mp hi2
        have hne : j3.id ≠ job.id := by
          intro he
          have he2 := eq_of_mem_id h.ids_nodup hj3 hj he
          rw [he2, hst] at hs3
          cases hs3
        exact ⟨j3, (hmem_iff j3).mpr (Or.inr ⟨hj3, hne⟩), he3, hs3⟩
      · exact ⟨runningJobOf s job, (hmem_iff _).mpr (Or.inl rfl),
          runningJobOf_id s job, runningJobOf_status s job⟩
    · rintro ⟨x, hx, hex, hsx⟩
      rcases (hmem_iff x).mp hx with rfl | ⟨hx2, hne⟩
      · right
        rw [← hex, runningJobOf_id, hid]
      · left
        exact (h.active_iff i2).mpr ⟨x, hx2, hex, hsx⟩
  · simp only [startJobOp]
    rw [List.length_append, List.length_singleton]
    simpa using hcap
  · intro x hx
    simp only [startJobOp, hs1] at hx
    rcases (hmem_iff x).mp hx with rfl | ⟨hx2, _⟩
    · rw [runningJobOf_status]
      intro hcontra
      cases hcontra
    · exact h.no_skipped x hx2
  · intro x hx
    simp only [startJobOp, hs1] at hx
    rcases (hmem_iff x).mp hx with rfl | ⟨hx2, _⟩
    · rw [runningJobOf_status, runningJobOf_completedAt, hcnone]
      simp
    · exact h.completed_iff x hx2
  · intro x hx t ht
    simp only [startJobOp, hs1] at hx ⊢
    rcases (hmem_iff x).mp hx with rfl | ⟨hx2, _⟩
    · rw [runningJobOf_completedAt, hcnone] at ht
      cases ht
    · have := h.times_lt x hx2 t ht
      omega
  · intro x hx
    simp only [startJobOp, hs1] at hx
    simp only [lookupContext, startJobOp]
    rcases (hmem_iff x).mp hx with rfl | ⟨hx2, _⟩
    · rw [runningJobOf_id]
      simpa [lookupContext] using h.ctx_total job hj
    · simpa [lookupContext] using h.ctx_total x hx2

@[simp] theorem trackMetrics_jobs (s : QueueState) (job : DeploymentJob) :
    (trackMetrics s job).jobs = s.jobs := rfl

@[simp] theorem trackMetrics_waiting (s : QueueState) (job : DeploymentJob) :
    (trackMetrics s job).waiting = s.waiting := rfl

@[simp] theorem trackMetrics_active (s : QueueState) (job : DeploymentJob) :
    (trackMetrics s job).active = s.active := rfl

@[simp] theorem trackMetrics_events (s : QueueState) (job : DeploymentJob) :
    (trackMetrics s job).events = s.events := rfl

@[simp] theorem trackMetrics_now (s : QueueState) (job : DeploymentJob) :
    (trackMetrics s job).now = s.now := rfl

@[simp] theorem trackMetrics_nextId (s : QueueState) (job : DeploymentJob) :
    (trackMetrics s job).nextId = s.nextId := rfl

@[simp] theorem trackMetrics_opts (s : QueueState) (job : DeploymentJob) :
    (trackMetrics s job).opts = s.opts := rfl

@[simp] theorem trackMetrics_contextByJob (s : QueueState)
    (job : DeploymentJob) :
    (trackMetrics s job).contextByJob = s.contextByJob := rfl

theorem completedJobOf_terminal (s : QueueState) (job : DeploymentJob)
    (r : DeploymentResult) :
    (completedJobOf s job r).status = JobState.succeeded ∨
      (completedJobOf s job r).status = JobState.failed := by
  unfold completedJobOf
  cases hr : r.status <;> simp [hr]

theorem active_not_waiting {s : QueueState} (h : WF0 s) {i : Nat}
    (ha : i ∈ s.active) : i ∉ s.waiting :=
  fun hw => waiting_active_disjoint h hw ha

theorem wf0_completeOkOp {s : QueueState} {job : DeploymentJob}
    {r : DeploymentResult} (h : WF0 s) (hj : job ∈ s.jobs)
    (hst : job.status = JobState.running) :
    WF0 (completeOkOp s job r) := by
  have hcnone : job.metrics.completedAt = none := by
    cases hcc : job.metrics.completedAt with
    | none => rfl
    | some t =>
      have h2 := (h.completed_iff job hj).mp (by rw [hcc]; rfl)
      rw [hst] at h2
      simp at h2
  have hterm := completedJobOf_terminal s job r
  have hmem_iff : ∀ x : DeploymentJob,
      x ∈ replaceJob s.jobs job.id (completedJobOf s job r) ↔
      (x = completedJobOf s job r ∨ (x ∈ s.jobs ∧ x.id ≠ job.id)) :=
    fun x => mem_replaceJob_iff hj rfl
  have hterm_ne_q : (completedJobOf s job r).status ≠ JobState.queued := by
    rcases hterm with ht | ht <;> rw [ht] <;> intro hc <;> cases hc
  have hterm_ne_r : (completedJobOf s job r).status ≠ JobState.running := by
    rcases hterm with ht | ht <;> rw [ht] <;> intro hc <;> cases hc
  have hterm_ne_sk : (completedJobOf s job r).status ≠ JobState.skipped := by
    rcases hterm with ht | ht <;> rw [ht] <;> intro hc <;> cases hc
  constructor
  · simp only [completeOkOp, trackMetrics_jobs]
    have hm := @replaceJob_map_id s.jobs job.id (completedJobOf s job r) rfl
    rw [hm]
    exact h.ids_nodup
  · intro x hx
    simp only [completeOkOp, trackMetrics_jobs] at hx
    rcases (hmem_iff x).mp hx with rfl | ⟨hx2, _⟩
    · simpa [completeOkOp] using h.ids_lt job hj
    · simpa [completeOkOp] using h.ids_lt x hx2
  · simpa [completeOkOp] using h.waiting_nodup
  · simp only [completeOkOp, trackMetrics_active]
    exact h.active_nodup.erase _
  · intro i2
    simp only [completeOkOp, trackMetrics_jobs, trackMetrics_waiting]
    constructor
    · intro hi2
      obtain ⟨j3, hj3, he3, hs3⟩ := (h.waiting_iff i2).mp hi2
      have hne : j3.id ≠ job.id := by
        intro he
        have he2 := eq_of_mem_id h.ids_nodup hj3 hj he
        rw [he2, hst] at hs3
        cases hs3
      exact ⟨j3, (hmem_iff j3).mpr (Or.inr ⟨hj3, hne⟩), he3, hs3⟩
    · rintro ⟨x, hx, hex, hsx⟩
      rcases (hmem_iff x).mp hx with rfl | ⟨hx2, _⟩
      · exact absurd hsx hterm_ne_q
      · exact (h.waiting_iff i2).mpr ⟨x, hx2, hex, hsx⟩
  · intro i2
    simp only [completeOkOp, trackMetrics_jobs, trackMetrics_active]
    rw [h.active_nodup.mem_erase_iff]
    constructor
    · rintro ⟨hne, hi2⟩
      obtain ⟨j3, hj3, he3, hs3⟩ := (h.active_iff i2).mp hi2
      have hne2 : j3.id ≠ job.id := by rw [he3]; exact hne
      exact ⟨j3, (hmem_iff j3).mpr (Or.inr ⟨hj3, hne2⟩), he3, hs3⟩
    · rintro ⟨x, hx, hex, hsx⟩
      rcases (hmem_iff x).mp hx with rfl | ⟨hx2, hne⟩
      · exact absurd hsx hterm_ne_r
      · exact ⟨by rw [← hex]; exact hne, (h.active_iff i2).mpr ⟨x, hx2, hex, hsx⟩⟩
  · simp only [completeOkOp, trackMetrics_active, trackMetrics_opts]
    exact le_trans (List.Sublist.length_le (List.erase_sublist _ _)) h.active_le
  · intro x hx
    simp only [completeOkOp, trackMetrics_jobs] at hx
    rcases (hmem_iff x).mp hx with rfl | ⟨hx2, _⟩
    · exact hterm_ne_sk
    · exact h.no_skipped x hx2
  · intro x hx
    simp only [completeOkOp, trackMetrics_jobs] at hx
    rcases (hmem_iff x).mp hx with rfl | ⟨hx2, _⟩
    · rw [completedJobOf_completedAt]
      rcases hterm with ht | ht <;> rw [ht] <;> simp
    · exact h.completed_iff x hx2
  · intro x hx t ht
    simp only [completeOkOp, trackMetrics_jobs] at hx
    simp only [completeOkOp, trackMetrics_now]
    rcases (hmem_iff x).mp hx with rfl | ⟨hx2, _⟩
    · rw [completedJobOf_completedAt] at ht
      cases ht
      omega
    · have := h.times_lt x hx2 t ht
      omega
  · intro x hx
    simp only [completeOkOp, trackMetrics_jobs] at hx
    simp only [lookupContext, completeOkOp, trackMetrics_contextByJob]
    rcases (hmem_iff x).mp hx with rfl | ⟨hx2, _⟩
    · rw [completedJobOf_id]
      simpa [lookupContext] using h.ctx_total job hj
    · simpa [lookupContext] using h.ctx_total x hx2

theorem wf0_handleJobFailureOp {s : QueueState} {job : DeploymentJob}
    {e : String} (h : WF0 s) (hj : job ∈ s.jobs)
    (hst : job.status = JobState.running) (hact : job.id ∈ s.active) :
    WF0 (handleJobFailureOp s job e) := by
  have hcnone : job.metrics.completedAt = none := by
    cases hcc : job.metrics.completedAt with
    | none => rfl
    | some t =>
      have h2 := (h.completed_iff job hj).mp (by rw [hcc]; rfl)
      rw [hst] at h2
      simp at h2
  have hnw : job.id ∉ s.waiting := active_not_waiting h hact
  unfold handleJobFailureOp
  by_cases hretry : job.metrics.attempt < s.opts.retryCount
  · rw [if_pos hretry]
    have hmem_iff : ∀ x : DeploymentJob,
        x ∈ replaceJob s.jobs job.id (retriedJobOf job e) ↔
        (x = retriedJobOf job e ∨ (x ∈ s.jobs ∧ x.id ≠ job.id)) :=
      fun x => mem_replaceJob_iff hj rfl
    constructor
    · have hm := @replaceJob_map_id s.jobs job.id (retriedJobOf job e) rfl
      simp only []
      rw [hm]
      exact h.ids_nodup
    · intro x hx
      simp only [] at hx
      rcases (hmem_iff x).mp hx with rfl | ⟨hx2, _⟩
      · simpa using h.ids_lt job hj
      · simpa using h.ids_lt x hx2
    · simp only []
      rw [← List.concat_eq_append]
      exact h.waiting_nodup.concat hnw
    · simp only []
      exact h.active_nodup.erase _
    · intro i2
      simp only []
      rw [List.mem_append, List.mem_singleton]
      constructor
      · rintro (hi2 | rfl)
        · obtain ⟨j3, hj3, he3, hs3⟩ := (h.waiting_iff i2).mp hi2
          have hne : j3.id ≠ job.id := by
            intro he
            have he2 := eq_of_mem_id h.ids_nodup hj3 hj he
            rw [he2, hst] at hs3
            cases hs3
          exact ⟨j3, (hmem_iff j3).mpr (Or.inr ⟨hj3, hne⟩), he3, hs3⟩
        · exact ⟨retriedJobOf job e, (hmem_iff _).mpr (Or.inl rfl),
            retriedJobOf_id job e, retriedJobOf_status job e⟩
      · rintro ⟨x, hx, hex, hsx⟩
        rcases (hmem_iff x).mp hx with rfl | ⟨hx2, hne⟩
        · right
          rw [← hex, retriedJobOf_id]
        · left
          exact (h.waiting_iff i2).mpr ⟨x, hx2, hex, hsx⟩
    · intro i2
      simp only []
      rw [h.active_nodup.mem_erase_iff]
      constructor
      · rintro ⟨hne, hi2⟩
        obtain ⟨j3, hj3, he3, hs3⟩ := (h.active_iff i2).mp hi2
        have hne2 : j3.id ≠ job.id := by rw [he3]; exact hne
        exact ⟨j3, (hmem_iff j3).mpr (Or.inr ⟨hj3, hne2⟩), he3, hs3⟩
      · rintro ⟨x, hx, hex, hsx⟩
        rcases (hmem_iff x).mp hx with rfl | ⟨hx2, hne⟩
        · rw [retriedJobOf_status] at hsx
          cases hsx
        · exact ⟨by rw [← hex]; exact hne,
            (h.active_iff i2).mpr ⟨x, hx2, hex, hsx⟩⟩
    · simp only []
      exact le_trans (List.Sublist.length_le (List.erase_sublist _ _))
        h.active_le
    · intro x hx
      simp only [] at hx
      rcases (hmem_iff x).mp hx with rfl | ⟨hx2, _⟩
      · rw [retriedJobOf_status]
        intro hc
        cases hc
      · exact h.no_skipped x hx2
    · intro x hx
      simp only [] at hx
      rcases (hmem_iff x).mp hx with rfl | ⟨hx2, _⟩
      · rw [retriedJobOf_status, retriedJobOf_completedAt]
        simp
      · exact h.completed_iff x hx2
    · intro x hx t ht
      simp only [] at hx ⊢
      rcases (hmem_iff x).mp hx with rfl | ⟨hx2, _⟩
      · rw [retriedJobOf_completedAt] at ht
        cases ht
      · have := h.times_lt x hx2 t ht
        omega
    · intro x hx
      simp only [] at hx
      simp only [lookupContext]
      rcases (hmem_iff x).mp hx with rfl | ⟨hx2, _⟩
      · rw [retriedJobOf_id]
        simpa [lookupContext] using h.ctx_total job hj
      · simpa [lookupContext] using h.ctx_total x hx2
  · rw [if_neg hretry]
    have hmem_iff : ∀ x : DeploymentJob,
        x ∈ replaceJob s.jobs job.id (failedJobOf s job e) ↔
        (x = failedJobOf s job e ∨ (x ∈ s.jobs ∧ x.id ≠ job.id)) :=
      fun x => mem_replaceJob_iff hj rfl
    constructor
    · have hm := @replaceJob_map_id s.jobs job.id (failedJobOf s job e) rfl
      simp only []
      rw [hm]
      exact h.ids_nodup
    · intro x hx
      simp only [] at hx
      rcases (hmem_iff x).mp hx with rfl | ⟨hx2, _⟩
      · simpa using h.ids_lt job hj
      · simpa using h.ids_lt x hx2
    · simpa using h.waiting_nodup
    · simp only []
      exact h.active_nodup.erase _
    · intro i2
      simp only []
      constructor
      · intro hi2
        obtain ⟨j3, hj3, he3, hs3⟩ := (h.waiting_iff i2).mp hi2
        have hne : j3.id ≠ job.id := by
          intro he
          have he2 := eq_of_mem_id h.ids_nodup hj3 hj he
          rw [he2, hst] at hs3
          cases hs3
        exact ⟨j3, (hmem_iff j3).mpr (Or.inr ⟨hj3, hne⟩), he3, hs3⟩
      · rintro ⟨x, hx, hex, hsx⟩
        rcases (hmem_iff x).mp hx with rfl | ⟨hx2, _⟩
        · rw [failedJobOf_status] at hsx
          cases hsx
        · exact (h.waiting_iff i2).mpr ⟨x, hx2, hex, hsx⟩
    · intro i2
      simp only []
      rw [h.active_nodup.mem_erase_iff]
      constructor
      · rintro ⟨hne, hi2⟩
        obtain ⟨j3, hj3, he3, hs3⟩ := (h.active_iff i2).mp hi2
        have hne2 : j3.id ≠ job.id := by rw [he3]; exact hne
        exact ⟨j3, (hmem_iff j3).mpr (Or.inr ⟨hj3, hne2⟩), he3, hs3⟩
      · rintro ⟨x, hx, hex, hsx⟩
        rcases (hmem_iff x).mp hx with rfl | ⟨hx2, hne⟩
        · rw [failedJobOf_status] at hsx
          cases hsx
        · exact ⟨by rw [← hex]; exact hne,
            (h.active_iff i2).mpr ⟨x, hx2, hex, hsx⟩⟩
    · simp only []
      exact le_trans (List.Sublist.length_le (List.erase_sublist _ _))
        h.active_le
    · intro x hx
      simp only [] at hx
      rcases (hmem_iff x).mp hx with rfl | ⟨hx2, _⟩
      · rw [failedJobOf_status]
        intro hc
        cases hc
      · exact h.no_skipped x hx2
    · intro x hx
      simp only [] at hx
      rcases (hmem_iff x).mp hx with rfl | ⟨hx2, _⟩
      · rw [failedJobOf_status, failedJobOf_completedAt]
        simp
      · exact h.completed_iff x hx2
    · intro x hx t ht
      simp only [] at hx ⊢
      rcases (hmem_iff x).mp hx with rfl | ⟨hx2, _⟩
      · rw [failedJobOf_completedAt] at ht
        cases ht
        omega
      · have := h.times_lt x hx2 t ht
        omega
    · intro x hx
      simp only [] at hx
      simp only [lookupContext]
      rcases (hmem_iff x).mp hx with rfl | ⟨hx2, _⟩
      · rw [failedJobOf_id]
        simpa [lookupContext] using h.ctx_total job hj
      · simpa [lookupContext] using h.ctx_total x hx2

theorem wf0_completeOp {s : QueueState} {i : Nat} {o : ExecOutcome}
    (h : WF0 s) (hact : i ∈ s.active) : WF0 (completeOp s i o) := by
  obtain ⟨job, hj, hje, hst⟩ := (h.active_iff i).mp hact
  have hfind : findJob s i = some job := hje ▸ findJob_of_mem h.ids_nodup hj
  unfold completeOp
  rw [hfind]
  cases o with
  | ok r => exact wf0_completeOkOp h hj hst
  | error e => exact wf0_handleJobFailureOp h hj hst (hje ▸ hact)

theorem wf0_cancelOp {s : QueueState} (h : WF0 s) (i : Nat) :
    WF0 (cancelOp s i) := by
  unfold cancelOp
  cases hfind : findJob s i with
  | none => exact h
  | some job =>
    simp only []
    by_cases hact : i ∈ s.active
    · rw [if_pos hact]
      exact h
    · rw [if_neg hact]
      obtain ⟨hj, hje⟩ := findJob_eq_some hfind
      have hmem_iff : ∀ x : DeploymentJob,
          x ∈ replaceJob s.jobs i (cancelledJobOf s job) ↔
          (x = cancelledJobOf s job ∨ (x ∈ s.jobs ∧ x.id ≠ i)) :=
        fun x => mem_replaceJob_iff hj hje
      have hcid : (cancelledJobOf s job).id = i := by
        rw [cancelledJobOf_id]; exact hje
      constructor
      · have hm := @replaceJob_map_id s.jobs i (cancelledJobOf s job) hcid
        simp only []
        rw [hm]
        exact h.ids_nodup
      · intro x hx
        simp only [] at hx
        rcases (hmem_iff x).mp hx with rfl | ⟨hx2, _⟩
        · simpa [hje] using h.ids_lt job hj
        · simpa using h.ids_lt x hx2
      · simp only []
        exact h.waiting_nodup.erase _
      · simpa using h.active_nodup
      · intro i2
        simp only []
        rw [h.waiting_nodup.mem_erase_iff]
        constructor
        · rintro ⟨hne, hi2⟩
          obtain ⟨j3, hj3, he3, hs3⟩ := (h.waiting_iff i2).mp hi2
          have hne2 : j3.id ≠ i := by rw [he3]; exact hne
          exact ⟨j3, (hmem_iff j3).mpr (Or.inr ⟨hj3, hne2⟩), he3, hs3⟩
        · rintro ⟨x, hx, hex, hsx⟩
          rcases (hmem_iff x).mp hx with rfl | ⟨hx2, hne⟩
          · rw [cancelledJobOf_status] at hsx
            cases hsx
          · exact ⟨by rw [← hex]; exact hne,
              (h.waiting_iff i2).mpr ⟨x, hx2, hex, hsx⟩⟩
      · intro i2
        simp only []
        constructor
        · intro hi2
          obtain ⟨j3, hj3, he3, hs3⟩ := (h.active_iff i2).mp hi2
          have hne : j3.id ≠ i := by
            intro he
            exact hact (he ▸ he3 ▸ hi2)
          exact ⟨j3, (hmem_iff j3).mpr (Or.inr ⟨hj3, hne⟩), he3, hs3⟩
        · rintro ⟨x, hx, hex, hsx⟩
          rcases (hmem_iff x).mp hx with rfl | ⟨hx2, _⟩
          · rw [cancelledJobOf_status] at hsx
            cases hsx
          · exact (h.active_iff i2).mpr ⟨x, hx2, hex, hsx⟩
      · simpa using h.active_le
      · intro x hx
        simp only [] at hx
        rcases (hmem_iff x).mp hx with rfl | ⟨hx2, _⟩
        · rw [cancelledJobOf_status]
          intro hc
          cases hc
        · exact h.no_skipped x hx2
      · intro x hx
        simp only [] at hx
        rcases (hmem_iff x).mp hx with rfl | ⟨hx2, _⟩
        · rw [cancelledJobOf_status, cancelledJobOf_completedAt]
          simp
        · exact h.completed_iff x hx2
      · intro x hx t ht
        simp only [] at hx ⊢
        rcases (hmem_iff x).mp hx with rfl | ⟨hx2, _⟩
        · rw [cancelledJobOf_completedAt] at ht
          cases ht
          omega
        · have := h.times_lt x hx2 t ht
          omega
      · intro x hx
        simp only [] at hx
        simp only [lookupContext]
        rcases (hmem_iff x).mp hx with rfl | ⟨hx2, _⟩
        · rw [hcid, ← hje]
          simpa [lookupContext] using h.ctx_total job hj
        · simpa [lookupContext] using h.ctx_total x hx2

theorem wf0_step {s s2 : QueueState} {l : QueueLabel} (hstep : Step s l s2)
    (h : WF0 s) : WF0 s2 := by
  cases hstep with
  | enq inp => exact wf0_enqueueOp h inp
  | start i rest hw hcap =>
    obtain ⟨job, hfind, hq, hid, hj, heq⟩ := processOneOp_eq h hw hcap
    rw [heq]
    exact wf0_startJobOp h hw hcap hq hid hj
  | complete i o hact => exact wf0_completeOp h hact
  | cancel i => exact wf0_cancelOp h i

theorem countStarts_append_nonstart (i : Nat) (tr : List QueueLabel)
    {l : QueueLabel} (hl : ∀ k, l ≠ QueueLabel.start k) :
    countStarts i (tr ++ [l]) = countStarts i tr := by
  rw [countStarts_append]
  cases l with
  | start k => exact absurd rfl (hl k)
  | enq inp => rfl
  | complete k o => rfl
  | cancel k => rfl

theorem countStarts_append_start (i k : Nat) (tr : List QueueLabel) :
    countStarts i (tr ++ [QueueLabel.start k]) =
      countStarts i tr + (if k == i then 1 else 0) := by
  rw [countStarts_append]

theorem replaceJob_length (jobs : List DeploymentJob) (i : Nat)
    (j2 : DeploymentJob) : (replaceJob jobs i j2).length = jobs.length := by
  unfold replaceJob
  exact List.length_map _ _

theorem countStarts_eq_zero_of_fresh {tr : List QueueLabel}
    {s : QueueState} (h : WF tr s) : countStarts s.nextId tr = 0 := by
  by_contra hne
  have hlt := h.starts_lt s.nextId (Nat.pos_of_ne_zero hne)
  omega

theorem wf_step {tr : List QueueLabel} {s s2 : QueueState} {l : QueueLabel}
    (h : WF tr s) (hstep : Step s l s2) : WF (tr ++ [l]) s2 := by
  have h0 := wf0_step hstep h.toWF0
  cases hstep with
  | enq inp =>
    refine ⟨h0, ?_, ?_, ?_⟩
    · intro j hj
      simp only [enqueueOp, createInitialJob, List.mem_append,
        List.mem_singleton] at hj
      rcases hj with hj | hj
      · rw [h.attempt_eq j hj,
          countStarts_append_nonstart _ _ (fun k h => by cases h)]
      · subst hj
        have hz := countStarts_eq_zero_of_fresh h
        simp only [createInitialJob]
        rw [countStarts_append_nonstart _ _ (fun k h => by cases h), hz]
    · intro i hpos
      rw [countStarts_append_nonstart _ _ (fun k h => by cases h)] at hpos
      have := h.starts_lt i hpos
      simp only [enqueueOp]
      omega
    · simp only [enqueueOp, createInitialJob]
      rw [List.length_append, countEnq_append]
      simp [h.enq_count]
  | start i rest hw hcap =>
    obtain ⟨job, hfind, hq, hid, hj, heq⟩ := processOneOp_eq h.toWF0 hw hcap
    rw [heq] at h0 ⊢
    have hs1 : runningJobOf { s with waiting := rest } job =
        runningJobOf s job := rfl
    refine ⟨h0, ?_, ?_, ?_⟩
    · intro x hx
      simp only [startJobOp, hs1] at hx
      rw [countStarts_append]
      rcases mem_replaceJob hx with rfl | ⟨hx2, hne⟩
      · rw [runningJobOf_attempt, runningJobOf_id,
          h.attempt_eq job hj, hid]
        simp
      · rw [h.attempt_eq x hx2]
        have hb : (i == x.id) = false := by
          simp only [beq_eq_false_iff_ne]
          exact fun he => hne (hid ▸ he.symm ▸ rfl)
        simp [hb]
    · intro i2 hpos
      simp only [startJobOp]
      by_cases he : i = i2
      · subst he
        have := h.ids_lt job hj
        omega
      · have hb : (i == i2) = false := by simpa using he
        simp only [countStarts_append_start, hb, Bool.false_eq_true,
          if_false, Nat.add_zero] at hpos
        have := h.starts_lt i2 hpos
        omega
    · simp only [startJobOp, hs1]
      rw [replaceJob_length,
        countEnq_append]
      simpa using h.enq_count
  | complete i o hact =>
    obtain ⟨job, hj, hje, hstt⟩ := (h.active_iff i).mp hact
    have hfind : findJob s i = some job :=
      hje ▸ findJob_of_mem h.ids_nodup hj
    have hnl : ∀ k, QueueLabel.complete i o ≠ QueueLabel.start k :=
      fun k hc => by cases hc
    unfold completeOp at h0 ⊢
    rw [hfind] at h0 ⊢
    cases o with
    | ok r =>
      refine ⟨h0, ?_, ?_, ?_⟩
      · intro x hx
        simp only [completeOkOp, trackMetrics_jobs] at hx
        rw [countStarts_append_nonstart _ _ hnl]
        rcases mem_replaceJob hx with rfl | ⟨hx2, _⟩
        · rw [completedJobOf_attempt, completedJobOf_id,
            h.attempt_eq job hj]
        · exact h.attempt_eq x hx2
      · intro i2 hpos
        rw [countStarts_append_nonstart _ _ hnl] at hpos
        have := h.starts_lt i2 hpos
        simpa [completeOkOp] using this
      · simp only [completeOkOp, trackMetrics_jobs]
        rw [replaceJob_length, countEnq_append]
        simpa using h.enq_count
    | error e =>
      simp only [] at h0 ⊢
      unfold handleJobFailureOp at h0 ⊢
      by_cases hretry : job.metrics.attempt < s.opts.retryCount
      · rw [if_pos hretry] at h0 ⊢
        refine ⟨h0, ?_, ?_, ?_⟩
        · intro x hx
          simp only [] at hx
          rw [countStarts_append_nonstart _ _ hnl]
          rcases mem_replaceJob hx with rfl | ⟨hx2, _⟩
          · rw [retriedJobOf_attempt, retriedJobOf_id, h.attempt_eq job hj]
          · exact h.attempt_eq x hx2
        · intro i2 hpos
          rw [countStarts_append_nonstart _ _ hnl] at hpos
          have := h.starts_lt i2 hpos
          simpa using this
        · simp only []
          rw [replaceJob_length, countEnq_append]
          simpa using h.enq_count
      · rw [if_neg hretry] at h0 ⊢
        refine ⟨h0, ?_, ?_, ?_⟩
        · intro x hx
          simp only [] at hx
          rw [countStarts_append_nonstart _ _ hnl]
          rcases mem_replaceJob hx with rfl | ⟨hx2, _⟩
          · rw [failedJobOf_attempt, failedJobOf_id, h.attempt_eq job hj]
          · exact h.attempt_eq x hx2
        · intro i2 hpos
          rw [countStarts_append_nonstart _ _ hnl] at hpos
          have := h.starts_lt i2 hpos
          simpa using this
        · simp only []
          rw [replaceJob_length, countEnq_append]
          simpa using h.enq_count
  | cancel i =>
    have hnl : ∀ k, QueueLabel.cancel i ≠ QueueLabel.start k :=
      fun k hc => by cases hc
    unfold cancelOp at h0 ⊢
    cases hfind : findJob s i with
    | none =>
      rw [hfind] at h0
      refine ⟨h0, ?_, ?_, ?_⟩
      · intro x hx
        rw [countStarts_append_nonstart _ _ hnl]
        exact h.attempt_eq x hx
      · intro i2 hpos
        rw [countStarts_append_nonstart _ _ hnl] at hpos
        exact h.starts_lt i2 hpos
      · rw [countEnq_append]
        simpa using h.enq_count
    | some job =>
      rw [hfind] at h0
      simp only [] at h0 ⊢
      obtain ⟨hj, hje⟩ := findJob_eq_some hfind
      by_cases hact : i ∈ s.active
      · rw [if_pos hact] at h0 ⊢
        refine ⟨h0, ?_, ?_, ?_⟩
        · intro x hx
          rw [countStarts_append_nonstart _ _ hnl]
          exact h.attempt_eq x hx
        · intro i2 hpos
          rw [countStarts_append_nonstart _ _ hnl] at hpos
          exact h.starts_lt i2 hpos
        · rw [countEnq_append]
          simpa using h.enq_count
      · rw [if_neg hact] at h0 ⊢
        refine ⟨h0, ?_, ?_, ?_⟩
        · intro x hx
          simp only [] at hx
          rw [countStarts_append_nonstart _ _ hnl]
          rcases mem_replaceJob hx with rfl | ⟨hx2, _⟩
          · rw [cancelledJobOf_attempt, cancelledJobOf_id,
              h.attempt_eq job hj, hje]
          · exact h.attempt_eq x hx2
        · intro i2 hpos
          rw [countStarts_append_nonstart _ _ hnl] at hpos
          have := h.starts_lt i2 hpos
          simpa using this
        · simp only []
          rw [replaceJob_length, countEnq_append]
          simpa using h.enq_count

theorem wf_init (opts : JobQueueOptions) : WF [] (initState opts) := by
  refine ⟨⟨?_, ?_, ?_, ?_, ?_, ?_, ?_, ?_, ?_, ?_, ?_⟩, ?_, ?_, ?_⟩ <;>
    simp [initState, countStarts, countEnq, lookupContext]

theorem wf_reach {tr : List QueueLabel} {s : QueueState} (h : Reach tr s) :
    WF tr s := by
  induction h with
  | init opts => exact wf_init opts
  | snoc hr hstep ih => exact wf_step ih hstep

/-! ## Options are constant along transitions -/

theorem processOneOp_opts (s : QueueState) :
    (processOneOp s).opts = s.opts := by
  unfold processOneOp
  split
  · split
    · rfl
    · simp only []
      split <;> rfl
  · rfl

theorem completeOp_opts (s : QueueState) (i : Nat) (o : ExecOutcome) :
    (completeOp s i o).opts = s.opts := by
  unfold completeOp
  split
  · rfl
  · split
    · rfl
    · unfold handleJobFailureOp
      split <;> rfl

theorem cancelOp_opts (s : QueueState) (i : Nat) :
    (cancelOp s i).opts = s.opts := by
  unfold cancelOp
  split
  · rfl
  · split <;> rfl

theorem step_opts {s s2 : QueueState} {l : QueueLabel}
    (hstep : Step s l s2) : s2.opts = s.opts := by
  cases hstep with
  | enq inp => rfl
  | start i rest hw hcap => exact processOneOp_opts s
  | complete i o hact => exact completeOp_opts s i o
  | cancel i => exact cancelOp_opts s i

/-! ## The throwing-job invariant (claims about retries) -/

theorem ThrowingJobInv_mono {R : Nat} {tr : List QueueLabel} {i : Nat}
    {j : DeploymentJob} (h : ThrowingJobInv R tr i j) (l : QueueLabel) :
    ThrowingJobInv R (tr ++ [l]) i j := by
  obtain ⟨hq, hrn, hf, hs, hc⟩ := h
  refine ⟨hq, hrn, ?_, hs, hc⟩
  intro hfail
  obtain ⟨ha, e, hmem, herr⟩ := hf hfail
  exact ⟨ha, e, List.mem_append_left _ hmem, herr⟩

theorem throwing_job_invariant {tr : List QueueLabel} {s : QueueState}
    (hr : Reach tr s) (i : Nat)
    (hthrow : throwsOnly i tr) (hnc : neverCancelled i tr) :
    ∀ j ∈ s.jobs, j.id = i → ThrowingJobInv s.opts.retryCount tr i j := by
  induction hr with
  | init opts =>
    intro j hj
    simp [initState] at hj
  | @snoc tr s l s2 hr hstep ih =>
    have hw := wf_reach hr
    have hthrow0 : throwsOnly i tr :=
      fun o ho => hthrow o (List.mem_append_left _ ho)
    have hnc0 : neverCancelled i tr :=
      fun hm => hnc (List.mem_append_left _ hm)
    have ih2 := ih hthrow0 hnc0
    intro j hj hje
    cases hstep with
    | enq inp =>
      simp only [enqueueOp, List.mem_append, List.mem_singleton] at hj
      have hopts : (enqueueOp s inp).opts = s.opts := rfl
      rw [hopts]
      rcases hj with hj | hj
      · exact ThrowingJobInv_mono (ih2 j hj hje) _
      · subst hj
        refine ⟨fun _ => Or.inl rfl, ?_, ?_, ?_, ?_⟩ <;>
          simp [createInitialJob, ThrowingJobInv]
    | start i2 rest hw2 hcap =>
      obtain ⟨job2, hfind2, hq2, hid2, hj2, heq⟩ :=
        processOneOp_eq hw.toWF0 hw2 hcap
      rw [heq] at hj
      rw [processOneOp_opts s]
      have hs1 : runningJobOf { s with waiting := rest } job2 =
          runningJobOf s job2 := rfl
      simp only [startJobOp, hs1] at hj
      rcases mem_replaceJob hj with rfl | ⟨hjold, hneq⟩
      · have hii : i2 = i := by
          rw [← hje, runningJobOf_id]
          exact hid2.symm ▸ rfl
        have hinv := ih2 job2 hj2 (hid2.trans hii)
        obtain ⟨hqI, _, _, _, _⟩ := hinv
        have hatt := hqI hq2
        refine ⟨?_, ?_, ?_, ?_, ?_⟩
        · intro hcontra
          rw [runningJobOf_status] at hcontra
          cases hcontra
        · intro _
          rw [runningJobOf_attempt]
          omega
        · intro hcontra
          rw [runningJobOf_status] at hcontra
          cases hcontra
        · rw [runningJobOf_status]
          intro hcontra
          cases hcontra
        · rw [runningJobOf_status]
          intro hcontra
          cases hcontra
      · exact ThrowingJobInv_mono (ih2 j hjold hje) _
    | complete i2 o hact =>
      obtain ⟨jobr, hjr, hjre, hjrs⟩ := (hw.active_iff i2).mp hact
      have hfindr : findJob s i2 = some jobr :=
        hjre ▸ findJob_of_mem hw.ids_nodup hjr
      have hopts : (completeOp s i2 o).opts = s.opts := completeOp_opts s i2 o
      rw [hopts]
      unfold completeOp at hj
      rw [hfindr] at hj
      by_cases hii : i2 = i
      · subst hii
        have hlab : QueueLabel.complete i2 o ∈ tr ++ [QueueLabel.complete i2 o] :=
          List.mem_append_right _ (List.mem_singleton_self _)
        obtain ⟨e, rfl⟩ := hthrow o hlab
        simp only [] at hj
        unfold handleJobFailureOp at hj
        have hinv := ih2 jobr hjr hjre
        obtain ⟨_, hrnI, _, _, _⟩ := hinv
        have hbounds := hrnI hjrs
        by_cases hretry : jobr.metrics.attempt < s.opts.retryCount
        · rw [if_pos hretry] at hj
          simp only [] at hj
          rcases mem_replaceJob hj with rfl | ⟨hjold, hneq⟩
          · refine ⟨?_, ?_, ?_, ?_, ?_⟩
            · intro _
              rw [retriedJobOf_attempt]
              exact Or.inr hretry
            · intro hcontra
              rw [retriedJobOf_status] at hcontra
              cases hcontra
            · intro hcontra
              rw [retriedJobOf_status] at hcontra
              cases hcontra
            · rw [retriedJobOf_status]
              intro hcontra
              cases hcontra
            · rw [retriedJobOf_status]
              intro hcontra
              cases hcontra
          · exact absurd (hje.trans hjre.symm) hneq
        · rw [if_neg hretry] at hj
          simp only [] at hj
          rcases mem_replaceJob hj with rfl | ⟨hjold, hneq⟩
          · refine ⟨?_, ?_, ?_, ?_, ?_⟩
            · intro hcontra
              rw [failedJobOf_status] at hcontra
              cases hcontra
            · intro hcontra
              rw [failedJobOf_status] at hcontra
              cases hcontra
            · intro _
              refine ⟨?_, e, hlab, failedJobOf_error s jobr e⟩
              rw [failedJobOf_attempt]
              omega
            · rw [failedJobOf_status]
              intro hcontra
              cases hcontra
            · rw [failedJobOf_status]
              intro hcontra
              cases hcontra
          · exact absurd (hje.trans hjre.symm) hneq
      · cases o with
        | ok r =>
          simp only [completeOkOp, trackMetrics_jobs] at hj
          rcases mem_replaceJob hj with rfl | ⟨hjold, hneq⟩
          · rw [completedJobOf_id] at hje
            exact absurd (hje.symm.trans hjre) (fun h2 => hii h2.symm)
          · exact ThrowingJobInv_mono (ih2 j hjold hje) _
        | error e =>
          simp only [] at hj
          unfold handleJobFailureOp at hj
          by_cases hretry : jobr.metrics.attempt < s.opts.retryCount
          · rw [if_pos hretry] at hj
            simp only [] at hj
            rcases mem_replaceJob hj with rfl | ⟨hjold, hneq⟩
            · rw [retriedJobOf_id] at hje
              exact absurd (hje.symm.trans hjre) (fun h2 => hii h2.symm)
            · exact ThrowingJobInv_mono (ih2 j hjold hje) _
          · rw [if_neg hretry] at hj
            simp only [] at hj
            rcases mem_replaceJob hj with rfl | ⟨hjold, hneq⟩
            · rw [failedJobOf_id] at hje
              exact absurd (hje.symm.trans hjre) (fun h2 => hii h2.symm)
            · exact ThrowingJobInv_mono (ih2 j hjold hje) _
    | cancel i2 =>
      by_cases hii : i2 = i
      · subst hii
        exact absurd (List.mem_append_right _ (List.mem_singleton_self _)) hnc
      · have hopts : (cancelOp s i2).opts = s.opts := cancelOp_opts s i2
        rw [hopts]
        unfold cancelOp at hj
        cases hfind2 : findJob s i2 with
        | none =>
          rw [hfind2] at hj
          exact ThrowingJobInv_mono (ih2 j hj hje) _
        | some job2 =>
          rw [hfind2] at hj
          simp only [] at hj
          obtain ⟨hj2, hje2⟩ := findJob_eq_some hfind2
          by_cases hact : i2 ∈ s.active
          · rw [if_pos hact] at hj
            exact ThrowingJobInv_mono (ih2 j hj hje) _
          · rw [if_neg hact] at hj
            simp only [] at hj
            rcases mem_replaceJob hj with rfl | ⟨hjold, hneq⟩
            · rw [cancelledJobOf_id] at hje
              exact absurd (hje.symm.trans hje2) (fun h2 => hii h2.symm)
            · exact ThrowingJobInv_mono (ih2 j hjold hje) _

/-! ## Reachability of the concrete fixture states -/

theorem reach_c1 : Reach c1tr c1s3 := by
  have h1 := Reach.snoc (Reach.init (exOpts 1)) (Step.enq _ exInput)
  have h2 := Reach.snoc h1 (Step.start _ 0 [] (by decide) (by decide))
  exact Reach.snoc h2 (Step.complete _ 0 (Except.error "boom") (by decide))

theorem reach_c1w : Reach c1wtr c1w3 := by
  have h1 := Reach.snoc (Reach.init (exOpts 0)) (Step.enq _ exInput)
  have h2 := Reach.snoc h1 (Step.start _ 0 [] (by decide) (by decide))
  exact Reach.snoc h2 (Step.complete _ 0 (Except.error "panne") (by decide))

theorem reach_c2s3 : Reach [QueueLabel.enq exInput, QueueLabel.start 0,
    QueueLabel.complete 0 c2outcome] c2s3 := by
  have h1 := Reach.snoc (Reach.init (exOpts 2)) (Step.enq _ exInput)
  have h2 := Reach.snoc h1 (Step.start _ 0 [] (by decide) (by decide))
  exact Reach.snoc h2 (Step.complete _ 0 c2outcome (by decide))

theorem reach_c2 : Reach c2tr c2s4 :=
  Reach.snoc reach_c2s3 (Step.start _ 0 [] (by decide) (by decide))

theorem reach_c2w : Reach c2wtr c2w3 := by
  have h1 := Reach.snoc (Reach.init (exOpts 1)) (Step.enq _ exInput)
  have h2 := Reach.snoc h1 (Step.start _ 0 [] (by decide) (by decide))
  exact Reach.snoc h2 (Step.complete _ 0 c2outcome (by decide))

theorem reach_c4 : Reach c4tr c4s4 := by
  have h1 := Reach.snoc (Reach.init (exOpts 1)) (Step.enq _ exInput)
  have h2 := Reach.snoc h1 (Step.start _ 0 [] (by decide) (by decide))
  have h3 := Reach.snoc h2
    (Step.complete _ 0 (Except.error "boom") (by decide))
  exact Reach.snoc h3 (Step.cancel _ 0)

theorem reach_c7 : Reach c7tr c7s5 := by
  have h1 := Reach.snoc (Reach.init (exOpts 1)) (Step.enq _ exInput)
  have h2 := Reach.snoc h1 (Step.enq _ exInput)
  have h3 := Reach.snoc h2 (Step.start _ 0 [1] (by decide) (by decide))
  have h4 := Reach.snoc h3
    (Step.complete _ 0 (Except.ok okResult) (by decide))
  exact Reach.snoc h4 (Step.cancel _ 1)

theorem reach_c9 : Reach c9tr c9s3 := by
  have h1 := Reach.snoc (Reach.init (exOpts 1)) (Step.enq _ exInput)
  have h2 := Reach.snoc h1 (Step.start _ 0 [] (by decide) (by decide))
  exact Reach.snoc h2 (Step.complete _ 0 (Except.ok okResult) (by decide))

/-! ## Remaining helper lemmas -/

theorem filter_or_length (jobs : List DeploymentJob) :
    (jobs.filter (fun j => j.status == JobState.succeeded ||
      j.status == JobState.failed)).length =
    (jobs.filter (fun j => j.status == JobState.succeeded)).length +
    (jobs.filter (fun j => j.status == JobState.failed)).length := by
  induction jobs with
  | nil => rfl
  | cons j rest ih =>
    cases h : j.status <;> simp [List.filter_cons, h, ih] <;> omega

theorem getStrategyForHost_none {strategies : List DeploymentStrategy}
    {host : HostRecord} (h : ∀ st ∈ strategies, st.supports host = false) :
    getStrategyForHost strategies host = none := by
  unfold getStrategyForHost
  rw [List.find?_eq_none]
  intro st hst
  simp [h st hst]

theorem executeJobManager_no_strategy {strategies : List DeploymentStrategy}
    {ctx : DeploymentContext} (job : DeploymentJob)
    (h : ∀ st ∈ strategies, st.supports ctx.host = false) :
    executeJobManager strategies job ctx =
      Except.error (noStrategyError ctx.host.os) := by
  unfold executeJobManager
  rw [getStrategyForHost_none h]

theorem find?_setHost (reg : Registry) (h : HostRecord) :
    (setHost reg h).find? (fun r => r.id == h.id) = some h := by
  unfold setHost
  by_cases hp : hasHost reg h.id
  · rw [if_pos hp]
    unfold hasHost at hp
    induction reg with
    | nil => simp at hp
    | cons a rest ih =>
      rw [List.map_cons]
      by_cases ha : a.id = h.id
      · have he : (if a.id == h.id then h else a) = h := by
          rw [if_pos (by simpa using ha)]
        rw [he]
        exact List.find?_cons_of_pos _ (by simp)
      · have he : (if a.id == h.id then h else a) = a := by
          rw [if_neg (by simpa using ha)]
        rw [he, List.find?_cons_of_neg _ (by simpa using ha)]
        apply ih
        simpa [List.any_cons, ha] using hp
  · rw [if_neg hp]
    unfold hasHost at hp
    have hnone : reg.find? (fun r => r.id == h.id) = none := by
      rw [List.find?_eq_none]
      intro r hr hb
      exact hp (List.any_eq_true.mpr ⟨r, hr, hb⟩)
    rw [List.find?_append, hnone]
    simp [List.find?]

theorem findHost_setHost (reg : Registry) (h : HostRecord) :
    findHost (setHost reg h) h.id = some h :=
  find?_setHost reg h

/-! ## Reachability of the refined fixtures -/

theorem reachA_race3 : ReachA raceTr3 raceS3 := by
  have h1 := ReachA.snoc (ReachA.init raceOpts) (StepA.enq _ exInput)
  have h2 := ReachA.snoc h1
    (StepA.start _ 0 [] (by decide) (by decide) (by decide))
  exact ReachA.snoc h2
    (StepA.complete _ raceRun1 (.error "boom") (by decide))

theorem reachA_race5 : ReachA raceTr5 raceS5 := by
  have h4 := ReachA.snoc reachA_race3 (StepA.enq _ exInput)
  exact ReachA.snoc h4
    (StepA.start _ 0 [1] (by decide) (by decide) (by decide))

theorem reachA_race9 : ReachA raceTr9 raceS9 := by
  have h6 := ReachA.snoc reachA_race5
    (StepA.start _ 1 [] (by decide) (by decide) (by decide))
  have h7 := ReachA.snoc h6 (StepA.enq _ exInput)
  have h8 := ReachA.snoc h7 (StepA.retryFin _ 0 (by decide))
  exact ReachA.snoc h8
    (StepA.start _ 2 [] (by decide) (by decide) (by decide))

theorem reachA_rev5 : ReachA revTr5 revS5 := by
  have h1 := ReachA.snoc (ReachA.init revOpts) (StepA.enq _ exInput)
  have h2 := ReachA.snoc h1 (StepA.enq _ exInput)
  have h3 := ReachA.snoc h2
    (StepA.start _ 0 [1] (by decide) (by decide) (by decide))
  have h4 := ReachA.snoc h3
    (StepA.popThrottle _ 1 [] (by decide) (by decide) (by decide)
      (by decide))
  exact ReachA.snoc h4 (StepA.cancel _ 1)

theorem reachA_rev6 : ReachA revTr6 revS6 :=
  ReachA.snoc reachA_rev5
    (StepA.startPending _ revCaptured exContext (by decide))

/-! ## Claim theorems -/

/-- C3 (refuted of the code): with `maxParallel = 2` and `retryCount = 2`,
the reachable schedule `raceTr9` — job 0 starts and throws; its retry
handler requeues it and rests in `delay(100)` with the job still in the
active map; job 1's enqueue triggers a pass that restarts job 0 (whose
`Map.set` keeps the one active entry) and starts job 1; job 2 is enqueued;
the delayed `finally` then deletes the restarted job 0's active entry while
its second run is in flight, freeing a slot for job 2 — ends with three
jobs in `running` status under `maxParallel = 2`.  `getSnapshot` still
reports `activeCount = 2`: the active map undercounts the running jobs, so
the spec's bound on running jobs is violated though the map stays full. -/
theorem C3_running_exceeds_maxParallel :
    ReachA raceTr9 raceS9 ∧
    raceS9.base.opts.maxParallel = 2 ∧
    countStatus raceS9.base JobState.running = 3 ∧
    (getSnapshot raceS9.base).activeCount = 2 ∧
    ¬ countStatus raceS9.base JobState.running ≤
        raceS9.base.opts.maxParallel :=
  ⟨reachA_race9, by decide, by decide, by decide, by decide⟩

/-- C6 (refuted of the code): in the reachable retry-window state `raceS3`
(one job enqueued, started, thrown, requeued by the retry handler which is
now resting in `delay(100)` — the state whose snapshot line 500 publishes),
the job is counted by `waitingCount` and by `activeCount` at once:
the four snapshot counters sum to 2 although only one job was ever
enqueued and none is cancelled, so the claimed conservation identity fails
at this snapshot. -/
theorem C6_conservation_fails_in_retry_window :
    ReachA raceTr3 raceS3 ∧
    countEnqA raceTr3 = 1 ∧
    countStatus raceS3.base JobState.cancelled = 0 ∧
    (getSnapshot raceS3.base).waitingCount +
        (getSnapshot raceS3.base).activeCount +
        (getSnapshot raceS3.base).completedCount +
        (getSnapshot raceS3.base).failedCount = 2 ∧
    ¬ (getSnapshot raceS3.base).waitingCount +
        (getSnapshot raceS3.base).activeCount +
        (getSnapshot raceS3.base).completedCount +
        (getSnapshot raceS3.base).failedCount =
      countEnqA raceTr3 -
        countStatus raceS3.base JobState.cancelled :=
  ⟨reachA_race3, by decide, by decide, by decide, by decide⟩

/-- C5 (refuted of the code): in the reachable retry-window state `raceS3`
job 0 is in the waiting FIFO with status `queued`, yet `cancel 0` is
rejected with no state change at all — the job's id is still in the active
map, left there until the retry handler's `delay(100)` elapses, so the
`activeJobs.has` guard takes it for running.  The uncancelled job then
reaches `running` again (`raceS5`): the claim's waiting-job half — removal
from the FIFO, status `cancelled`, never reaching `running` — fails for
jobs in this window. -/
theorem C5_cancel_rejected_in_retry_window :
    ReachA raceTr3 raceS3 ∧
    0 ∈ raceS3.base.waiting ∧
    (findJob raceS3.base 0).map (fun j => j.status) =
      some JobState.queued ∧
    cancelOpA raceS3 0 = raceS3 ∧
    ReachA raceTr5 raceS5 ∧
    (findJob raceS5.base 0).map (fun j => j.status) =
      some JobState.running :=
  ⟨reachA_race3, by decide, by decide, by decide, reachA_race5, by decide⟩

/-- C4 (amended): `cancel` does not reset a job's execution history — the
cancelled record keeps the old `attempt` and `startedAt` unchanged (only
`status`, `completedAt` and `elapsedMs` are overwritten), so a `cancelled`
job may well have been started before cancellation.  Nor is cancellation
final: in the refined system a job cancelled while a throttled scheduling
pass holds it popped from the FIFO (reachable state `revS5`) is afterwards
revived by `startJob` from the pass's stale captured record and runs
(`revS6`). -/
theorem C4_cancel_keeps_history :
    (∀ (s : QueueState) (i : Nat) (j : DeploymentJob),
      findJob s i = some j → i ∉ s.active →
        findJob (cancelOp s i) i = some (cancelledJobOf s j) ∧
        (cancelledJobOf s j).status = JobState.cancelled ∧
        (cancelledJobOf s j).metrics.attempt = j.metrics.attempt ∧
        (cancelledJobOf s j).metrics.startedAt = j.metrics.startedAt) ∧
    (ReachA revTr5 revS5 ∧
      (findJob revS5.base 1).map (fun j => j.status) =
        some JobState.cancelled ∧
      ReachA revTr6 revS6 ∧
      (findJob revS6.base 1).map (fun j => j.status) =
        some JobState.running ∧
      (findJob revS6.base 1).map (fun j => j.metrics.attempt) = some 1) := by
  constructor
  · intro s i j hfind hina
    have hred : cancelOp s i = { s with
        waiting := s.waiting.erase i
        jobs := replaceJob s.jobs i (cancelledJobOf s j)
        events := s.events ++ [.jobCompleted i]
        now := s.now + 1 } := by
      unfold cancelOp
      rw [hfind]
      simp only []
      rw [if_neg hina]
    have hfind' : s.jobs.find? (fun a => a.id == i) = some j := hfind
    have hji : j.id = i := by simpa using List.find?_some hfind'
    refine ⟨?_, rfl, rfl, rfl⟩
    rw [hred]
    unfold findJob
    simp only []
    exact find?_id_replace_self hfind' (by rw [cancelledJobOf_id]; exact hji)
  · exact ⟨reachA_rev5, by decide, reachA_rev6, by decide, by decide⟩

theorem C4_cancel_keeps_history_witness :
    findJob (cancelOp c4s3 0) 0 = some (cancelledJobOf c4s3 c1Job) ∧
    (cancelledJobOf c4s3 c1Job).metrics.attempt = 1 ∧
    (cancelledJobOf c4s3 c1Job).metrics.startedAt = some 1 := by
  have h := C4_cancel_keeps_history.1 c4s3 0 c1Job (by decide) (by decide)
  exact ⟨h.1, by decide, by decide⟩

/-- C4 counterexample: in the reachable state `c4s4` (enqueue, one failing
run with `retryCount = 1`, then `cancel` on the terminal job), the job has
status `cancelled` yet its executor was invoked once: `attempt = 1`,
`startedAt` is set, and the trace holds one `start` for it.  So a
`cancelled` job is not necessarily never-started. -/
theorem C4_cancelled_never_started_false :
    Reach c4tr c4s4 ∧
    (findJob c4s4 0).map (fun j => j.status) = some JobState.cancelled ∧
    (findJob c4s4 0).map (fun j => j.metrics.attempt) = some 1 ∧
    (findJob c4s4 0).map (fun j => j.metrics.startedAt) = some (some 1) ∧
    countStarts 0 c4tr = 1 :=
  ⟨reach_c4, by decide, by decide, by decide, by decide⟩

/-- C9: `cancel` on an existing job that is not in the active set — in
particular one already terminal (`succeeded` or `failed`) — overwrites its
status with `cancelled`, zeroes `elapsedMs`, stamps a fresh `completedAt`
(different from the job's previous one), and emits `jobCompleted` again:
terminal states are not guarded against cancellation. -/
theorem C9_cancel_overwrites_terminal {tr : List QueueLabel}
    {s : QueueState} {i : Nat} {j : DeploymentJob}
    (hr : Reach tr s) (hfind : findJob s i = some j)
    (hterm : j.status = JobState.succeeded ∨ j.status = JobState.failed) :
    i ∉ s.active ∧
    findJob (cancelOp s i) i = some (cancelledJobOf s j) ∧
    (cancelledJobOf s j).status = JobState.cancelled ∧
    (cancelledJobOf s j).metrics.elapsedMs = some 0 ∧
    (cancelledJobOf s j).metrics.completedAt = some s.now ∧
    (∀ t, j.metrics.completedAt = some t → t ≠ s.now) ∧
    (cancelOp s i).events = s.events ++ [QueueEvent.jobCompleted i] := by
  have h0 := (wf_reach hr).toWF0
  obtain ⟨hj, hje⟩ := findJob_eq_some hfind
  have hina : i ∉ s.active := by
    intro hact
    obtain ⟨j3, hj3, he3, hs3⟩ := (h0.active_iff i).mp hact
    have heq := eq_of_mem_id h0.ids_nodup hj3 hj (he3.trans hje.symm)
    rw [heq] at hs3
    rcases hterm with ht | ht <;> rw [ht] at hs3 <;> cases hs3
  have hred : cancelOp s i = { s with
      waiting := s.waiting.erase i
      jobs := replaceJob s.jobs i (cancelledJobOf s j)
      events := s.events ++ [.jobCompleted i]
      now := s.now + 1 } := by
    unfold cancelOp
    rw [hfind]
    simp only []
    rw [if_neg hina]
  refine ⟨hina, ?_, rfl, rfl, rfl, ?_, ?_⟩
  · rw [hred]
    unfold findJob
    simp only []
    exact find?_id_replace_self hfind (by rw [cancelledJobOf_id]; exact hje)
  · intro t ht
    have := h0.times_lt j hj t ht
    omega
  · rw [hred]

theorem C9_cancel_overwrites_terminal_witness :
    findJob c9s3 0 = some c9Job ∧
    c9Job.status = JobState.succeeded ∧
    findJob (cancelOp c9s3 0) 0 = some (cancelledJobOf c9s3 c9Job) ∧
    (cancelledJobOf c9s3 c9Job).metrics.elapsedMs = some 0 ∧
    (cancelOp c9s3 0).events =
      c9s3.events ++ [QueueEvent.jobCompleted 0] := by
  have hf : findJob c9s3 0 = some c9Job := by decide
  have h := C9_cancel_overwrites_terminal reach_c9 hf (Or.inl (by decide))
  exact ⟨hf, by decide, h.2.1, h.2.2.2.1, h.2.2.2.2.2.2⟩

/-- C1 (amended): for a job whose executor throws on every invocation, in a
queue with `retryCount = R` (and the job never cancelled), the job can never
be `succeeded`, its `attempt` equals the number of executor invocations
(`start` labels), and when it settles `failed` it was attempted exactly
`max R 1` times — R times for R ≥ 1 and once for R = 0, not R+1 times —
with `completedAt` set.  (`handleJobFailure` retries while
`retryCount - attempt > 0`, and `attempt` is incremented before each run.) -/
theorem C1_always_throwing_attempts {tr : List QueueLabel} {s : QueueState}
    {i R : Nat} {j : DeploymentJob}
    (hr : Reach tr s) (hR : s.opts.retryCount = R)
    (hthrow : throwsOnly i tr) (hnc : neverCancelled i tr)
    (hfind : findJob s i = some j) :
    j.metrics.attempt = countStarts i tr ∧
    j.status ≠ JobState.succeeded ∧
    (j.status = JobState.failed →
      j.metrics.attempt = max R 1 ∧ j.metrics.completedAt.isSome) := by
  have hw := wf_reach hr
  obtain ⟨hj, hje⟩ := findJob_eq_some hfind
  obtain ⟨hq, hrn, hf, hs, hc⟩ :=
    throwing_job_invariant hr i hthrow hnc j hj hje
  refine ⟨hje ▸ hw.attempt_eq j hj, hs, ?_⟩
  intro hfail
  obtain ⟨ha, _⟩ := hf hfail
  exact ⟨hR ▸ ha, (hw.completed_iff j hj).mpr (Or.inr (Or.inl hfail))⟩

theorem C1_always_throwing_attempts_witness :
    c1w3.opts.retryCount = 0 ∧
    findJob c1w3 0 = some c1wJob ∧
    c1wJob.metrics.attempt = countStarts 0 c1wtr ∧
    c1wJob.status ≠ JobState.succeeded ∧
    (c1wJob.status = JobState.failed →
      c1wJob.metrics.attempt = max 0 1 ∧
      c1wJob.metrics.completedAt.isSome) := by
  have hf : findJob c1w3 0 = some c1wJob := by decide
  have hth : throwsOnly 0 c1wtr := by
    intro o ho
    simp only [c1wtr, List.mem_cons, List.not_mem_nil, or_false] at ho
    rcases ho with h | h | h
    · cases h
    · cases h
    · injection h with h1 h2
      exact ⟨"panne", h2⟩
  have h := C1_always_throwing_attempts reach_c1w rfl hth
    (show QueueLabel.cancel 0 ∉ c1wtr by decide) hf
  exact ⟨by decide, hf, h.1, h.2.1, h.2.2⟩

/-- C1 counterexample: with `retryCount = 1` and an executor that always
throws, the job is started exactly once and ends `failed` with
`attempt = 1`, not `retryCount + 1 = 2`: `handleJobFailure` computes
`attemptsRemaining = retryCount - attempt` after `startJob` has already
incremented `attempt`, so the first failure exhausts the budget. -/
theorem C1_retry_plus_one_false :
    Reach c1tr c1s3 ∧
    c1s3.opts.retryCount = 1 ∧
    findJob c1s3 0 = some c1Job ∧
    c1Job.status = JobState.failed ∧
    countStarts 0 c1tr = 1 ∧
    c1Job.metrics.attempt = 1 ∧
    ¬(c1Job.metrics.attempt = 1 + 1) :=
  ⟨reach_c1, by decide, by decide, by decide, by decide, by decide,
    by decide⟩

/-- C2 (amended): a job whose host no registered strategy supports gets the
thrown configuration error `noStrategyError` from the manager's executor on
every attempt; it can never succeed, and when it settles `failed` its
terminal error is the no-strategy error and it was attempted `max R 1`
times.  With the manager's `retryCount ≤ 1` (the default is 1) it fails on
its first attempt, but the thrown configuration error follows the generic
retry path, so with `retryCount ≥ 2` the job IS retried. -/
theorem C2_no_strategy_failure {tr : List QueueLabel} {s : QueueState}
    {i R : Nat} {j : DeploymentJob}
    {strategies : List DeploymentStrategy} {ctx : DeploymentContext}
    (hr : Reach tr s) (hR : s.opts.retryCount = R)
    (hnone : ∀ st ∈ strategies, st.supports ctx.host = false)
    (hout : ∀ o, QueueLabel.complete i o ∈ tr →
      ∃ jb, o = executeJobManager strategies jb ctx)
    (hnc : neverCancelled i tr)
    (hfind : findJob s i = some j) :
    j.status ≠ JobState.succeeded ∧
    (j.status = JobState.failed →
      j.metrics.attempt = max R 1 ∧
      j.error = some (noStrategyError ctx.host.os)) ∧
    (R ≤ 1 → j.status = JobState.failed → j.metrics.attempt = 1) := by
  have hthrow : throwsOnly i tr := by
    intro o ho
    obtain ⟨jb, rfl⟩ := hout o ho
    rw [executeJobManager_no_strategy jb hnone]
    exact ⟨_, rfl⟩
  obtain ⟨hj, hje⟩ := findJob_eq_some hfind
  obtain ⟨hq, hrn, hf, hs, hc⟩ :=
    throwing_job_invariant hr i hthrow hnc j hj hje
  refine ⟨hs, ?_, ?_⟩
  · intro hfail
    obtain ⟨ha, e, hmem, herr⟩ := hf hfail
    obtain ⟨jb, hoe⟩ := hout (Except.error e) hmem
    rw [executeJobManager_no_strategy jb hnone] at hoe
    injection hoe with he
    rw [he] at herr
    exact ⟨hR ▸ ha, herr⟩
  · intro hR1 hfail
    obtain ⟨ha, _⟩ := hf hfail
    rw [hR] at ha
    omega

theorem C2_no_strategy_failure_witness :
    c2w3.opts.retryCount = 1 ∧
    winrmStrategy.supports exContext.host = false ∧
    findJob c2w3 0 = some c2wJob ∧
    c2wJob.status ≠ JobState.succeeded ∧
    (c2wJob.status = JobState.failed →
      c2wJob.metrics.attempt = max 1 1 ∧
      c2wJob.error = some (noStrategyError exContext.host.os)) ∧
    (1 ≤ 1 → c2wJob.status = JobState.failed →
      c2wJob.metrics.attempt = 1) := by
  have hf : findJob c2w3 0 = some c2wJob := by decide
  have hnone : ∀ st ∈ [winrmStrategy], st.supports exContext.host = false := by
    intro st hst
    rw [List.mem_singleton] at hst
    subst hst
    decide
  have hout : ∀ o, QueueLabel.complete 0 o ∈ c2wtr →
      ∃ jb, o = executeJobManager [winrmStrategy] jb exContext := by
    intro o ho
    simp only [c2wtr, List.mem_cons, List.not_mem_nil, or_false] at ho
    rcases ho with h | h | h
    · cases h
    · cases h
    · injection h with h1 h2
      exact ⟨anyJob, h2⟩
  have h := C2_no_strategy_failure reach_c2w rfl hnone hout
    (show QueueLabel.cancel 0 ∉ c2wtr by decide) hf
  exact ⟨by decide, by decide, hf, h.1, h.2.1, h.2.2⟩

/-- C2 counterexample: with `retryCount = 2`, a job on a linux host with
only the WinRM strategy registered throws the no-strategy configuration
error, and rather than failing immediately it is returned to the FIFO
(status `queued`, `jobRetried` emitted) and started a second time
(`attempt = 2`): configuration errors are not special-cased and do get
retried. -/
theorem C2_not_retried_false :
    Reach c2tr c2s4 ∧
    winrmSupports exHostLinux = false ∧
    c2outcome = Except.error (noStrategyError "linux") ∧
    (findJob c2s3 0).map (fun j => j.status) = some JobState.queued ∧
    QueueEvent.jobRetried 0 2 ∈ c2s3.events ∧
    (findJob c2s4 0).map (fun j => j.metrics.attempt) = some 2 ∧
    countStarts 0 c2tr = 2 :=
  ⟨reach_c2, by decide, by decide, by decide, by decide, by decide,
    by decide⟩

theorem getTelemetry_successRate (s : QueueState) :
    (getTelemetry s).successRate = (countStatus s JobState.succeeded : ℚ) /
      (((if countStatus s JobState.succeeded +
            countStatus s JobState.failed = 0 then 1
          else countStatus s JobState.succeeded +
            countStatus s JobState.failed : Nat) : ℚ)) := by
  unfold getTelemetry
  simp only [filter_or_length]
  rfl

theorem getTelemetry_failureRate (s : QueueState) :
    (getTelemetry s).failureRate = (countStatus s JobState.failed : ℚ) /
      (((if countStatus s JobState.succeeded +
            countStatus s JobState.failed = 0 then 1
          else countStatus s JobState.succeeded +
            countStatus s JobState.failed : Nat) : ℚ)) := by
  unfold getTelemetry
  simp only [filter_or_length]
  rfl

/-- C7 (amended): `getTelemetry` computes `successRate` and `failureRate`
as fractions of the jobs whose status is `succeeded` or `failed` only —
cancelled jobs are NOT part of the denominator — with the denominator
defended against zero (`total || 1`). -/
theorem C7_rates_exclude_cancelled (s : QueueState) :
    (getTelemetry s).successRate = (codeRates s).1 ∧
    (getTelemetry s).failureRate = (codeRates s).2 := by
  unfold codeRates
  rw [getTelemetry_successRate, getTelemetry_failureRate]
  by_cases h : countStatus s JobState.succeeded +
      countStatus s JobState.failed = 0 <;>
    simp [h]

/-- C7 counterexample: in the reachable state `c7s5` (one succeeded job and
one cancelled job, no failed job), `getTelemetry` reports
`successRate = 1`, while rates over all *terminal* jobs (the spec's
`succeeded`, `failed` and `cancelled`) would be `1/2`: the code's
denominator excludes cancelled jobs, so the claim's denominator is wrong. -/
theorem C7_terminal_denominator_false :
    Reach c7tr c7s5 ∧
    countStatus c7s5 JobState.succeeded = 1 ∧
    countStatus c7s5 JobState.failed = 0 ∧
    countStatus c7s5 JobState.cancelled = 1 ∧
    (getTelemetry c7s5).successRate = 1 ∧
    (specTerminalRates c7s5).1 = 1 / 2 ∧
    (getTelemetry c7s5).successRate ≠ (specTerminalRates c7s5).1 := by
  have hs : countStatus c7s5 JobState.succeeded = 1 := by decide
  have hfa : countStatus c7s5 JobState.failed = 0 := by decide
  have hc : countStatus c7s5 JobState.cancelled = 1 := by decide
  have h1 : (getTelemetry c7s5).successRate = 1 := by
    rw [getTelemetry_successRate, hs, hfa]
    norm_num
  have h2 : (specTerminalRates c7s5).1 = 1 / 2 := by
    unfold specTerminalRates
    rw [hs, hfa, hc]
    norm_num
  refine ⟨reach_c7, hs, hfa, hc, h1, h2, ?_⟩
  rw [h1, h2]
  norm_num

/-- C10: the two telemetry rates sum to 1 as soon as at least one job is
`succeeded` or `failed`, and are both 0 when no job is (the `total || 1`
default makes the denominator 1 in that case). -/
theorem C10_rates_sum (s : QueueState) :
    (countStatus s JobState.succeeded + countStatus s JobState.failed = 0 →
      (getTelemetry s).successRate = 0 ∧
      (getTelemetry s).failureRate = 0) ∧
    (0 < countStatus s JobState.succeeded + countStatus s JobState.failed →
      (getTelemetry s).successRate + (getTelemetry s).failureRate = 1) := by
  constructor
  · intro h0
    have hs : countStatus s JobState.succeeded = 0 := by omega
    have hf : countStatus s JobState.failed = 0 := by omega
    rw [getTelemetry_successRate, getTelemetry_failureRate, hs, hf]
    norm_num
  · intro hpos
    have hne : countStatus s JobState.succeeded +
        countStatus s JobState.failed ≠ 0 := by omega
    rw [getTelemetry_successRate, getTelemetry_failureRate, if_neg hne]
    rw [div_add_div_same]
    rw [← Nat.cast_add]
    refine div_self ?_
    exact_mod_cast hne

theorem C10_rates_sum_witness :
    ((getTelemetry w1s1).successRate = 0 ∧
      (getTelemetry w1s1).failureRate = 0) ∧
    (getTelemetry c9s3).successRate + (getTelemetry c9s3).failureRate = 1 :=
  ⟨(C10_rates_sum w1s1).1 (by decide), (C10_rates_sum c9s3).2 (by decide)⟩

/-- C8: `importFromCsv` skips (and counts) every data row whose resolved
address is missing or empty, stores the row's record under its id counting
`updated` when the id is already present and `added` otherwise; the
two-row scenario with one missing address yields
`{added 1, updated 0, skipped 1}`, and re-importing an existing id with a
new address increments `updated` and leaves the registry holding the
latest address. -/
theorem C8_import_from_csv :
    (∀ (defaults : HostDefaults) (idx : ColumnIndexes) (i : Nat)
        (line : List Char) (st : ImportState),
      (rowAddress idx (rowColumns line) = [] →
        processRow defaults idx i line st =
          { st with skipped := st.skipped + 1 }) ∧
      (rowAddress idx (rowColumns line) ≠ [] →
        (hasHost st.reg (String.mk (rowId idx i (rowColumns line))) = true →
          processRow defaults idx i line st =
            { st with
              reg := setHost st.reg
                (rowRecord defaults idx i (rowColumns line))
              updated := st.updated + 1 }) ∧
        (hasHost st.reg (String.mk (rowId idx i (rowColumns line))) = false →
          processRow defaults idx i line st =
            { st with
              reg := setHost st.reg
                (rowRecord defaults idx i (rowColumns line))
              added := st.added + 1 }) ∧
        findHost (processRow defaults idx i line st).reg
            (String.mk (rowId idx i (rowColumns line))) =
          some (rowRecord defaults idx i (rowColumns line)))) ∧
    (importFromCsv c8csvTwoRows noDefaults []).1 =
      { added := 1, updated := 0, skipped := 1 } ∧
    c8import1.1 = { added := 1, updated := 0, skipped := 0 } ∧
    c8import2.1 = { added := 0, updated := 1, skipped := 0 } ∧
    (findHost c8import2.2 "h1").map (fun h => h.address) =
      some "10.0.0.2" := by
  refine ⟨?_, by decide, by decide, by decide, by decide⟩
  intro defaults idx i line st
  have hid : (rowRecord defaults idx i (rowColumns line)).id =
      String.mk (rowId idx i (rowColumns line)) := rfl
  constructor
  · intro haddr
    unfold processRow
    rw [if_pos haddr]
  · intro haddr
    have hred : processRow defaults idx i line st =
        (if hasHost st.reg (rowRecord defaults idx i (rowColumns line)).id
          then { st with
            reg := setHost st.reg
              (rowRecord defaults idx i (rowColumns line))
            updated := st.updated + 1 }
          else { st with
            reg := setHost st.reg
              (rowRecord defaults idx i (rowColumns line))
            added := st.added + 1 }) := by
      unfold processRow
      rw [if_neg haddr]
    refine ⟨?_, ?_, ?_⟩
    · intro hhas
      rw [hred, hid, hhas]
      simp
    · intro hhas
      rw [hred, hid, hhas]
      simp
    · rw [hred]
      by_cases hhas :
          hasHost st.reg (rowRecord defaults idx i (rowColumns line)).id
      · rw [if_pos hhas]
        exact hid ▸ findHost_setHost st.reg _
      · rw [if_neg hhas]
        exact hid ▸ findHost_setHost st.reg _

theorem C7_rates_exclude_cancelled_witness :
    (getTelemetry c7s5).successRate = (codeRates c7s5).1 ∧
    (getTelemetry c7s5).failureRate = (codeRates c7s5).2 :=
  C7_rates_exclude_cancelled c7s5

theorem C8_import_from_csv_witness :
    rowAddress (resolveColumns ("id,name,address".data))
        (rowColumns ("pc9,Gamma,".data)) = [] ∧
    processRow noDefaults (resolveColumns ("id,name,address".data)) 1
        ("pc9,Gamma,".data)
        { reg := [], added := 0, updated := 0, skipped := 0 } =
      { reg := [], added := 0, updated := 0, skipped := 0 + 1 } := by
  have h := (C8_import_from_csv.1 noDefaults
    (resolveColumns ("id,name,address".data)) 1 ("pc9,Gamma,".data)
    { reg := [], added := 0, updated := 0, skipped := 0 }).1
  exact ⟨by decide, h (by decide)⟩

end ArduinoClassroom
